import Mathlib

/-!
Verification of the identity-consolidation core of the bitespeed backend.

The embedding below mirrors `src/routes/identify.ts`. A stored contact row
becomes `Contact`; the database is a `List Contact` in insertion (id) order,
`prisma.contact.findMany` becomes a `List.filter` over that list,
`prisma.contact.create` appends a row carrying the next id, and
`prisma.contact.update` rewrites the row with the given id. Absent or `null`
request fields become `none`; the empty string stays `some ""` because the
route handles it separately from `null`. JavaScript truthiness of the string
fields is modelled by `truthy`.
-/

namespace Bitespeed

inductive LinkPrecedence where
  | primary
  | secondary
deriving DecidableEq, Repr

structure Contact where
  id : Nat
  email : Option String
  phoneNumber : Option String
  linkPrecedence : LinkPrecedence
  linkedId : Option Nat
  createdAt : Nat
deriving DecidableEq, Repr

/-- JavaScript truthiness for `string | null | undefined` request fields:
`undefined`, `null` and `""` are falsy. -/
def truthy : Option String → Bool
  | none => false
  | some s => s != ""

/-- Worker for `dedupKeepFirst`: keep each element not seen before,
remembering what has been kept. -/
def dedupKeepFirstAux : List String → List String → List String
  | [], _ => []
  | x :: xs, seen =>
    if seen.contains x then dedupKeepFirstAux xs seen
    else x :: dedupKeepFirstAux xs (x :: seen)

/-- Set-based dedup keeping the first occurrence of every element, the
semantics of `Array.from(new Set(...))`. -/
def dedupKeepFirst (l : List String) : List String :=
  dedupKeepFirstAux l []

/-- `uniqueNonNull`: drop nulls, then dedup keeping first occurrences. -/
def uniqueNonNull (arr : List (Option String)) : List String :=
  dedupKeepFirst (arr.filterMap id)

/-- The `OR` clause used by the seed lookup: one equality test per field that
arrived as a string (possibly empty); with no field supplied the clause
matches nothing (the route inserts an impossible `id: -1` test). -/
def buildWhereOrForSingleLookup (email phoneNumber : Option String) (c : Contact) : Bool :=
  (match email with
   | some e => c.email == some e
   | none => false) ||
  (match phoneNumber with
   | some p => c.phoneNumber == some p
   | none => false)

/-- STEP 1 of the route: the seed contacts matching the incoming email or
phone directly. -/
def existingContacts (store : List Contact) (email phoneNumber : Option String) : List Contact :=
  store.filter (buildWhereOrForSingleLookup email phoneNumber)

/-- Distinct non-null emails seen in the seed contacts. -/
def seedsEmails (store : List Contact) (email phoneNumber : Option String) : List String :=
  uniqueNonNull ((existingContacts store email phoneNumber).map (·.email))

/-- Distinct non-null phone numbers seen in the seed contacts. -/
def seedsPhones (store : List Contact) (email phoneNumber : Option String) : List String :=
  uniqueNonNull ((existingContacts store email phoneNumber).map (·.phoneNumber))

/-- The `where` of the expansion re-query: membership of the row's email in
the seeds' email set or of its phone in the seeds' phone set, each clause
present only when its set is non-empty; if both sets are empty the route
falls back to the single-lookup `OR`. -/
def expansionMatch (seedsE seedsP : List String) (email phoneNumber : Option String)
    (c : Contact) : Bool :=
  if seedsE.isEmpty && seedsP.isEmpty then
    buildWhereOrForSingleLookup email phoneNumber c
  else
    (match c.email with
     | some v => seedsE.contains v
     | none => false) ||
    (match c.phoneNumber with
     | some v => seedsP.contains v
     | none => false)

/-- STEP 3 of the route: the expanded set of contacts the request works on. -/
def allLinkedContacts (store : List Contact) (email phoneNumber : Option String) : List Contact :=
  store.filter
    (expansionMatch (seedsEmails store email phoneNumber) (seedsPhones store email phoneNumber)
      email phoneNumber)

/-- STEP 4 of the route: `reduce` keeping the contact with the smallest
`createdAt`, the earlier list element winning ties. -/
def pickOldest : List Contact → Option Contact
  | [] => none
  | a :: rest =>
    some ((a :: rest).foldl
      (fun oldest curr => if curr.createdAt < oldest.createdAt then curr else oldest) a)

/-- Autoincrement id assignment of the storage collaborator. -/
def nextId (store : List Contact) : Nat :=
  store.foldr (fun c m => max c.id m) 0 + 1

/-- `prisma.contact.update` on the unique id: rewrite `linkPrecedence` and
`linkedId` of the row with id `i`. -/
def updateContact (store : List Contact) (i : Nat) (lp : LinkPrecedence)
    (lid : Option Nat) : List Contact :=
  store.map (fun c => if c.id == i then { c with linkPrecedence := lp, linkedId := lid } else c)

/-- STEP 5 of the route: rows of the expanded set that are not already
`secondary` linked to the chosen primary. -/
def toDowngradeList (all : List Contact) (primary : Contact) : List Contact :=
  all.filter (fun c =>
    c.id != primary.id &&
      (c.linkPrecedence != LinkPrecedence.secondary || c.linkedId != some primary.id))

/-- The sequence of `prisma.contact.update` calls issued by `Promise.all`
over the downgrade list. -/
def applyDowngrades (store : List Contact) (l : List Contact) (pid : Nat) : List Contact :=
  l.foldl (fun s c => updateContact s c.id LinkPrecedence.secondary (some pid)) store

/-- The image of a single stored row under the whole downgrade pass: rows
listed for downgrade become secondaries of `pid`, all others are kept. -/
def downgradeFun (tdl : List Contact) (pid : Nat) (c : Contact) : Contact :=
  if tdl.any (fun d => d.id == c.id) then
    { c with linkPrecedence := LinkPrecedence.secondary, linkedId := some pid }
  else c

/-- STEP 6 of the route: the incoming payload introduces new information if
its exact (email, phoneNumber) tuple is absent from the expanded set and one
of its truthy sides is a value unseen in the expanded set. -/
def introducesNewInfoB (all : List Contact) (email phoneNumber : Option String) : Bool :=
  let hasSameTuple := all.any (fun c => email == c.email && phoneNumber == c.phoneNumber)
  let alreadyHasEmail := if truthy email then all.any (fun c => c.email == email) else true
  let alreadyHasPhone :=
    if truthy phoneNumber then all.any (fun c => c.phoneNumber == phoneNumber) else true
  !hasSameTuple &&
    ((truthy email && !alreadyHasEmail) || (truthy phoneNumber && !alreadyHasPhone))

/-- The body of the `contact` object of a success response. The field name
`primaryContatctId` carries the spelling the route actually emits. -/
structure ContactView where
  primaryContatctId : Nat
  emails : List String
  phoneNumbers : List String
  secondaryContactIds : List Nat
deriving DecidableEq, Repr

inductive ResolveError where
  | invalidRequest
deriving DecidableEq, Repr

/-- STEP 8 of the route: move the primary's own value to the front; a `null`
or empty value leaves the list untouched. -/
def prependIfPresent (arr : List String) (val : Option String) : List String :=
  match val with
  | none => arr
  | some v => if v == "" then arr else v :: arr.filter (fun x => x != v)

/-- A freshly inserted row. -/
def mkContact (i : Nat) (email phoneNumber : Option String) (lp : LinkPrecedence)
    (lid : Option Nat) (t : Nat) : Contact :=
  { id := i, email := email, phoneNumber := phoneNumber, linkPrecedence := lp,
    linkedId := lid, createdAt := t }

/-- The row created when no match exists (STEP 2, and the defensive fallback
after an empty expansion). -/
def newPrimaryContact (store : List Contact) (now : Nat)
    (email phoneNumber : Option String) : Contact :=
  mkContact (nextId store) email phoneNumber LinkPrecedence.primary none now

/-- The response returned for a freshly created primary. -/
def singletonView (created : Contact) : ContactView :=
  { primaryContatctId := created.id
    emails := uniqueNonNull [created.email]
    phoneNumbers := uniqueNonNull [created.phoneNumber]
    secondaryContactIds := [] }

/-- STEPS 5-8 of the route, once a non-empty expanded set and its oldest
member are at hand: downgrade, possibly insert, snapshot, format. -/
def resolveMain (store : List Contact) (now : Nat) (email phoneNumber : Option String)
    (all : List Contact) (primary : Contact) :
    Except ResolveError ContactView × List Contact :=
  let toDowngrade := toDowngradeList all primary
  let store1 := applyDowngrades store toDowngrade primary.id
  let store2 :=
    if introducesNewInfoB all email phoneNumber then
      store1 ++
        [mkContact (nextId store1) email phoneNumber LinkPrecedence.secondary
          (some primary.id) now]
    else
      store1
  let finalContacts :=
    store2.filter (fun c => c.id == primary.id || c.linkedId == some primary.id)
  let finalEmails := uniqueNonNull (finalContacts.map (·.email))
  let finalPhones := uniqueNonNull (finalContacts.map (·.phoneNumber))
  let secondaryIds :=
    (finalContacts.filter (fun c => c.linkPrecedence == LinkPrecedence.secondary)).map (·.id)
  (Except.ok
    { primaryContatctId := primary.id
      emails := prependIfPresent finalEmails primary.email
      phoneNumbers := prependIfPresent finalPhones primary.phoneNumber
      secondaryContactIds := secondaryIds },
   store2)

/-- The whole `POST /identify` handler: validation, seed lookup, the
no-match primary creation, expansion, defensive fallback, and the main
downgrade/insert/snapshot path. The returned list is the post-request
storage state. -/
def resolve (store : List Contact) (now : Nat) (email phoneNumber : Option String) :
    Except ResolveError ContactView × List Contact :=
  if !truthy email && !truthy phoneNumber then
    (Except.error ResolveError.invalidRequest, store)
  else
    if (existingContacts store email phoneNumber).isEmpty then
      let created := newPrimaryContact store now email phoneNumber
      (Except.ok (singletonView created), store ++ [created])
    else
      match pickOldest (allLinkedContacts store email phoneNumber) with
      | none =>
        let created := newPrimaryContact store now email phoneNumber
        (Except.ok (singletonView created), store ++ [created])
      | some primary =>
        resolveMain store now email phoneNumber (allLinkedContacts store email phoneNumber)
          primary

/-! ### The spec's component relation and invariants

The spec's glossary defines a component as "the maximal set of contact rows
transitively connected by sharing an email or a phone value". The checker
below saturates that relation by iterating one-step growth `store.length`
times, which reaches the fixpoint on any store. -/

/-- Two rows share a value when their emails are equal non-null strings or
their phone numbers are. -/
def sharesValue (c d : Contact) : Bool :=
  (match c.email, d.email with
   | some a, some b => a == b
   | _, _ => false) ||
  (match c.phoneNumber, d.phoneNumber with
   | some a, some b => a == b
   | _, _ => false)

/-- One growth step of a component: adjoin every store row sharing a value
with a row already collected. -/
def growComponent (store : List Contact) (s : List Contact) : List Contact :=
  s ++ store.filter (fun c => !s.contains c && s.any (fun d => sharesValue d c))

/-- The connected component of `c` inside `store` under the value-sharing
relation of the spec's glossary. -/
def valueComponent (store : List Contact) (c : Contact) : List Contact :=
  Nat.iterate (growComponent store) store.length [c]

/-- The invariant bundle claimed for every storage state: each value-sharing
component holds exactly one `primary` row, and every `secondary` row's
`linkedId` carries the id of a `primary` row of its own component (which in
particular rules out a secondary pointing at a secondary). -/
def specComponentInvariantB (store : List Contact) : Bool :=
  store.all (fun c =>
    let comp := valueComponent store c
    ((comp.filter (fun d => d.linkPrecedence == LinkPrecedence.primary)).length == 1) &&
      (match c.linkPrecedence, c.linkedId with
       | LinkPrecedence.primary, _ => true
       | LinkPrecedence.secondary, none => false
       | LinkPrecedence.secondary, some j =>
         comp.any (fun d => d.id == j && d.linkPrecedence == LinkPrecedence.primary)))

/-! ### The JSON shape of a success response -/

inductive Json where
  | num : Int → Json
  | str : String → Json
  | arr : List Json → Json
  | obj : List (String × Json) → Json

/-- Keys of a JSON object, in emission order. -/
def Json.objKeys : Json → List String
  | Json.obj l => l.map (·.1)
  | _ => []

/-- The body every success path of the route emits:
`res.status(200).json({ contact: { primaryContatctId, emails, phoneNumbers,
secondaryContactIds } })`, keys spelled as in the source. -/
def successBody (v : ContactView) : Json :=
  Json.obj
    [("contact",
      Json.obj
        [("primaryContatctId", Json.num (Int.ofNat v.primaryContatctId)),
         ("emails", Json.arr (v.emails.map Json.str)),
         ("phoneNumbers", Json.arr (v.phoneNumbers.map Json.str)),
         ("secondaryContactIds",
          Json.arr (v.secondaryContactIds.map (fun i => Json.num (Int.ofNat i))))])]

/-- Decidable connectivity: `d` lies in the value-sharing component of `c`. -/
def connectedB (store : List Contact) (c d : Contact) : Bool :=
  (valueComponent store c).contains d

/-- The claim's "full connected component of the input": every store row
transitively connected (by value sharing) to some seed contact. -/
def inputComponent (store : List Contact) (email phoneNumber : Option String) : List Contact :=
  store.filter (fun c => (existingContacts store email phoneNumber).any
    (fun s => connectedB store s c))

/-- Modelled from the claim's words for step 6 (C5): a new row is inserted
iff the incoming pair is not present verbatim on some contact of the
considered set, and at least one side of the pair — read as a present string
value, which includes the empty string — appears on no contact of that set. -/
def specNewInfo (all : List Contact) (email phoneNumber : Option String) : Bool :=
  (!(all.any (fun c => c.email == email && c.phoneNumber == phoneNumber))) &&
  ((match email with
    | some v => all.all (fun c => c.email != some v)
    | none => false) ||
   (match phoneNumber with
    | some v => all.all (fun c => c.phoneNumber != some v)
    | none => false))

/-- The field names the claim asserts for the success payload. -/
def claimedShapeKeys : List String :=
  ["primaryContactId", "emails", "phoneNumbers", "secondaryContactIds"]

/-! ### Link-aware component structure, for the amended invariant claim

Merging two components whose shared pair of values is already fully known
stores no row holding both values, so value-sharing alone loses the
connection the request witnessed. The faithful component relation also
follows `linkedId` references, in either direction. -/

/-- Adjacency: sharing a value, or a `linkedId` reference one way or the
other (so the relation is symmetric). -/
def edgeB (c d : Contact) : Bool :=
  sharesValue c d || c.linkedId == some d.id || d.linkedId == some c.id

/-- Connectivity inside a given storage state: the reflexive-transitive
closure of adjacency between store members. -/
def Conn (store : List Contact) (c d : Contact) : Prop :=
  Relation.ReflTransGen (fun x y => x ∈ store ∧ y ∈ store ∧ edgeB x y = true) c d

/-- The structural invariants of §3 of the spec, over link-aware components:
primaries carry no `linkedId`; every contact is connected to a primary;
distinct connected primaries coincide (one primary per component); every
secondary's `linkedId` is the id of a primary of its component. -/
def GoodState (store : List Contact) : Prop :=
  (∀ c ∈ store, c.linkPrecedence = LinkPrecedence.primary → c.linkedId = none) ∧
  (∀ c ∈ store, ∃ q ∈ store, q.linkPrecedence = LinkPrecedence.primary ∧ Conn store c q) ∧
  (∀ c ∈ store, ∀ d ∈ store, c.linkPrecedence = LinkPrecedence.primary →
    d.linkPrecedence = LinkPrecedence.primary → Conn store c d → c = d) ∧
  (∀ c ∈ store, c.linkPrecedence = LinkPrecedence.secondary →
    ∃ j, c.linkedId = some j ∧
      ∃ q ∈ store, q.id = j ∧ q.linkPrecedence = LinkPrecedence.primary ∧ Conn store c q)

/-- Seniority: the primary of a component strictly precedes every other
member in (createdAt, id) lexicographic order. -/
def Seniority (store : List Contact) : Prop :=
  ∀ c ∈ store, ∀ d ∈ store, c.linkPrecedence = LinkPrecedence.primary →
    Conn store c d → c ≠ d →
      c.createdAt < d.createdAt ∨ (c.createdAt = d.createdAt ∧ c.id < d.id)

/-- The storage returns rows in insertion order: ids strictly increase along
the list. -/
abbrev SortedById (store : List Contact) : Prop :=
  store.Pairwise (fun c d => c.id < d.id)

/-- Creation timestamps never decrease along insertion order. -/
abbrev CreatedAtMono (store : List Contact) : Prop :=
  store.Pairwise (fun c d => c.createdAt ≤ d.createdAt)

/-- A row only ever references a row created before it. -/
def linkIdLt (c : Contact) : Bool :=
  match c.linkedId with
  | none => true
  | some j => decide (j < c.id)

/-! ### Concrete fixtures used by counterexamples and witnesses -/

/-- C1 counterexample fixture: two unrelated singleton primaries. -/
def exC1a : Contact := mkContact 1 (some "a") (some "1") LinkPrecedence.primary none 10

/-- Second primary of the C1 fixture, sharing no value with the first. -/
def exC1b : Contact := mkContact 2 (some "b") (some "2") LinkPrecedence.primary none 20

/-- The C1 fixture's second contact after the merge downgrades it. -/
def exC1bDown : Contact := mkContact 2 (some "b") (some "2") LinkPrecedence.secondary (some 1) 20

/-- C1 witness fixture: a singleton store. -/
def exC1w : Contact := mkContact 1 (some "a") (some "1") LinkPrecedence.primary none 10

/-- C2 counterexample fixture: a four-row chain where each consecutive pair
shares a value but the ends share nothing. -/
def exC2 : List Contact :=
  [mkContact 1 (some "a") (some "1") LinkPrecedence.primary none 10,
   mkContact 2 (some "b") (some "1") LinkPrecedence.secondary (some 1) 20,
   mkContact 3 (some "b") (some "2") LinkPrecedence.secondary (some 1) 30,
   mkContact 4 (some "c") (some "2") LinkPrecedence.secondary (some 1) 40]

/-- C3 witness fixture: the oldest row is a secondary and ties another row
on `createdAt`. -/
def exC3 : List Contact :=
  [mkContact 1 (some "a") (some "1") LinkPrecedence.secondary (some 2) 5,
   mkContact 2 (some "a") (some "2") LinkPrecedence.primary none 5,
   mkContact 3 (some "b") (some "2") LinkPrecedence.secondary (some 2) 9]

/-- C4 fixture: one old primary plus a two-row component that the request
merges into it, forcing two downgrade writes. -/
def exC4 : List Contact :=
  [mkContact 1 (some "a") (some "1") LinkPrecedence.primary none 10,
   mkContact 2 (some "b") (some "2") LinkPrecedence.primary none 20,
   mkContact 3 (some "b") (some "3") LinkPrecedence.secondary (some 2) 30]

/-- C5 counterexample fixture: one contact knowing the phone but not the
(empty-string) email. -/
def exC5 : Contact := mkContact 1 (some "a") (some "1") LinkPrecedence.primary none 10

/-- C5 witness fixture: one contact knowing the phone; the request brings a
genuinely new email. -/
def exC5w : Contact := mkContact 1 (some "a") (some "1") LinkPrecedence.primary none 10

/-- C6 witness fixture. -/
def exC6 : Contact := mkContact 1 (some "a") (some "1") LinkPrecedence.primary none 10

/-- C7 witness fixture: a primary and its secondary sharing a phone. -/
def exC7 : List Contact :=
  [mkContact 1 (some "a") (some "1") LinkPrecedence.primary none 10,
   mkContact 2 (some "b") (some "1") LinkPrecedence.secondary (some 1) 20]

/-- C8 fixture: the view returned for the first request on an empty store. -/
def exC8view : ContactView :=
  { primaryContatctId := 1, emails := ["x"], phoneNumbers := ["9"], secondaryContactIds := [] }

/-- C8 witness fixture: a two-row component. -/
def exC8w : List Contact :=
  [mkContact 1 (some "a") (some "1") LinkPrecedence.primary none 10,
   mkContact 2 (some "b") (some "1") LinkPrecedence.secondary (some 1) 20]

/-- C10 witness phone value. -/
def exC10phone : String := "5"

/-! ### General lemmas about the pipeline -/

theorem truthy_or_of_not_both {e p : Option String} (h : (!truthy e && !truthy p) = false) :
    (truthy e || truthy p) = true := by
  cases he : truthy e <;> cases hp : truthy p <;> simp_all

theorem resolve_shape (store : List Contact) (now : Nat) (e p : Option String) :
    resolve store now e p = (Except.error ResolveError.invalidRequest, store) ∨
    (resolve store now e p).2 = store ++ [newPrimaryContact store now e p] ∨
    ∃ primary, pickOldest (allLinkedContacts store e p) = some primary ∧
      (resolve store now e p).2 =
        (if introducesNewInfoB (allLinkedContacts store e p) e p then
          applyDowngrades store (toDowngradeList (allLinkedContacts store e p) primary)
              primary.id ++
            [mkContact
              (nextId (applyDowngrades store
                (toDowngradeList (allLinkedContacts store e p) primary) primary.id))
              e p LinkPrecedence.secondary (some primary.id) now]
        else
          applyDowngrades store (toDowngradeList (allLinkedContacts store e p) primary)
            primary.id) := by
  unfold resolve
  split
  · exact Or.inl rfl
  split
  · exact Or.inr (Or.inl rfl)
  cases hpick : pickOldest (allLinkedContacts store e p) with
  | none => exact Or.inr (Or.inl rfl)
  | some primary =>
    refine Or.inr (Or.inr ⟨primary, rfl, ?_⟩)
    rfl

theorem resolve_ok_of_valid (store : List Contact) (now : Nat) (e p : Option String)
    (hv : (truthy e || truthy p) = true) :
    ∃ v, (resolve store now e p).1 = Except.ok v := by
  unfold resolve
  have hcond : (!truthy e && !truthy p) = false := by
    cases he : truthy e <;> cases hp : truthy p <;> simp_all
  rw [hcond]
  simp only [Bool.false_eq_true, if_false]
  split
  · exact ⟨_, rfl⟩
  cases pickOldest (allLinkedContacts store e p) with
  | none => exact ⟨_, rfl⟩
  | some primary => exact ⟨_, rfl⟩

theorem updateContact_map_id (store : List Contact) (i : Nat) (lp : LinkPrecedence)
    (lid : Option Nat) :
    (updateContact store i lp lid).map Contact.id = store.map Contact.id := by
  unfold updateContact
  rw [List.map_map]
  refine List.map_congr_left ?_
  intro c _
  by_cases h : c.id = i <;> simp [h]

theorem applyDowngrades_map_id (l : List Contact) (store : List Contact) (pid : Nat) :
    (applyDowngrades store l pid).map Contact.id = store.map Contact.id := by
  induction l generalizing store with
  | nil => rfl
  | cons d l ih =>
    show (applyDowngrades (updateContact store d.id LinkPrecedence.secondary (some pid)) l
      pid).map Contact.id = _
    rw [ih, updateContact_map_id]

theorem mem_updateContact_fields {store : List Contact} {i : Nat} {lp : LinkPrecedence}
    {lid : Option Nat} {c : Contact} (h : c ∈ updateContact store i lp lid) :
    ∃ d ∈ store, c.id = d.id ∧ c.email = d.email ∧ c.phoneNumber = d.phoneNumber ∧
      c.createdAt = d.createdAt := by
  unfold updateContact at h
  obtain ⟨d, hd, rfl⟩ := List.mem_map.mp h
  refine ⟨d, hd, ?_⟩
  by_cases hb : d.id = i <;> simp [hb]

theorem mem_applyDowngrades_fields {l store : List Contact} {pid : Nat} {c : Contact}
    (h : c ∈ applyDowngrades store l pid) :
    ∃ d ∈ store, c.id = d.id ∧ c.email = d.email ∧ c.phoneNumber = d.phoneNumber ∧
      c.createdAt = d.createdAt := by
  induction l generalizing store with
  | nil => exact ⟨c, h, rfl, rfl, rfl, rfl⟩
  | cons x l ih =>
    have h' : c ∈ applyDowngrades
        (updateContact store x.id LinkPrecedence.secondary (some pid)) l pid := h
    obtain ⟨d, hd, h1, h2, h3, h4⟩ := ih h'
    obtain ⟨d', hd', g1, g2, g3, g4⟩ := mem_updateContact_fields hd
    exact ⟨d', hd', h1.trans g1, h2.trans g2, h3.trans g3, h4.trans g4⟩

/-! ### C6 -/

/-- C6: a request in which both email and phone are absent, null or the
empty string resolves to `InvalidRequest` and leaves the storage state
untouched (the handler returns before any storage operation). -/
theorem C6_invalid_request (store : List Contact) (now : Nat) (e p : Option String)
    (he : e = none ∨ e = some "") (hp : p = none ∨ p = some "") :
    resolve store now e p = (Except.error ResolveError.invalidRequest, store) := by
  rcases he with rfl | rfl <;> rcases hp with rfl | rfl <;> simp [resolve, truthy]

/-- C6 witness: the concrete request with `email = ""` and `phone = null`
against a one-row store is rejected without touching the store. -/
theorem C6_invalid_request_witness :
    resolve [exC6] 5 (some "") none = (Except.error ResolveError.invalidRequest, [exC6]) :=
  C6_invalid_request [exC6] 5 (some "") none (Or.inr rfl) (Or.inl rfl)

/-! ### Dedup, seed and expansion characterisations -/

theorem mem_dedupKeepFirstAux {l seen : List String} {a : String} :
    a ∈ dedupKeepFirstAux l seen ↔ a ∈ l ∧ a ∉ seen := by
  induction l generalizing seen with
  | nil => simp [dedupKeepFirstAux]
  | cons x xs ih =>
    simp only [dedupKeepFirstAux]
    by_cases hx : seen.contains x
    · rw [if_pos hx, ih]
      have hxs : x ∈ seen := by simpa using hx
      constructor
      · rintro ⟨h1, h2⟩; exact ⟨List.mem_cons_of_mem _ h1, h2⟩
      · rintro ⟨h1, h2⟩
        rcases List.mem_cons.mp h1 with rfl | h1
        · exact absurd hxs h2
        · exact ⟨h1, h2⟩
    · rw [if_neg hx]
      have hxs : x ∉ seen := by simpa using hx
      simp only [List.mem_cons, ih, List.mem_cons]
      constructor
      · rintro (rfl | ⟨h1, h2⟩)
        · exact ⟨Or.inl rfl, hxs⟩
        · exact ⟨Or.inr h1, fun hc => h2 (Or.inr hc)⟩
      · rintro ⟨rfl | h1, h2⟩
        · exact Or.inl rfl
        · by_cases hax : a = x
          · exact Or.inl hax
          · refine Or.inr ⟨h1, ?_⟩
            intro hc
            rcases hc with rfl | hc
            · exact hax rfl
            · exact h2 hc

theorem nodup_dedupKeepFirstAux (l : List String) : ∀ seen, (dedupKeepFirstAux l seen).Nodup := by
  induction l with
  | nil => intro seen; simp [dedupKeepFirstAux]
  | cons x xs ih =>
    intro seen
    simp only [dedupKeepFirstAux]
    by_cases hx : seen.contains x
    · rw [if_pos hx]; exact ih seen
    · rw [if_neg hx]
      refine List.nodup_cons.mpr ⟨?_, ih (x :: seen)⟩
      intro hmem
      exact (mem_dedupKeepFirstAux.mp hmem).2 (List.mem_cons_self x seen)

theorem mem_uniqueNonNull {arr : List (Option String)} {s : String} :
    s ∈ uniqueNonNull arr ↔ some s ∈ arr := by
  unfold uniqueNonNull dedupKeepFirst
  rw [mem_dedupKeepFirstAux]
  simp [List.mem_filterMap]

theorem nodup_uniqueNonNull (arr : List (Option String)) : (uniqueNonNull arr).Nodup :=
  nodup_dedupKeepFirstAux _ []

theorem buildWhere_spec {e p : Option String} {c : Contact} :
    buildWhereOrForSingleLookup e p c = true ↔
      (∃ v, e = some v ∧ c.email = some v) ∨ (∃ v, p = some v ∧ c.phoneNumber = some v) := by
  unfold buildWhereOrForSingleLookup
  cases e <;> cases p <;> simp

theorem sharesValue_spec {c d : Contact} :
    sharesValue c d = true ↔
      (∃ v, c.email = some v ∧ d.email = some v) ∨
      (∃ v, c.phoneNumber = some v ∧ d.phoneNumber = some v) := by
  unfold sharesValue
  cases h1 : c.email <;> cases h2 : d.email <;> cases h3 : c.phoneNumber <;>
    cases h4 : d.phoneNumber <;> simp
  all_goals aesop

theorem sharesValue_comm (c d : Contact) : sharesValue c d = sharesValue d c := by
  rw [Bool.eq_iff_iff, sharesValue_spec, sharesValue_spec]
  constructor <;> rintro (⟨v, h1, h2⟩ | ⟨v, h1, h2⟩)
  · exact Or.inl ⟨v, h2, h1⟩
  · exact Or.inr ⟨v, h2, h1⟩
  · exact Or.inl ⟨v, h2, h1⟩
  · exact Or.inr ⟨v, h2, h1⟩

theorem mem_seedsEmails {store : List Contact} {e p : Option String} {v : String} :
    v ∈ seedsEmails store e p ↔ ∃ s ∈ existingContacts store e p, s.email = some v := by
  unfold seedsEmails
  rw [mem_uniqueNonNull]
  simp [List.mem_map, eq_comm]

theorem mem_seedsPhones {store : List Contact} {e p : Option String} {v : String} :
    v ∈ seedsPhones store e p ↔ ∃ s ∈ existingContacts store e p, s.phoneNumber = some v := by
  unfold seedsPhones
  rw [mem_uniqueNonNull]
  simp [List.mem_map, eq_comm]

theorem seeds_lists_not_both_empty {store : List Contact} {e p : Option String}
    (h : existingContacts store e p ≠ []) :
    ((seedsEmails store e p).isEmpty && (seedsPhones store e p).isEmpty) = false := by
  obtain ⟨s, hs⟩ := List.exists_mem_of_ne_nil _ h
  have hmatch := List.of_mem_filter (p := buildWhereOrForSingleLookup e p) hs
  rcases buildWhere_spec.mp hmatch with ⟨v, _, hv⟩ | ⟨v, _, hv⟩
  · have : v ∈ seedsEmails store e p := mem_seedsEmails.mpr ⟨s, hs, hv⟩
    rcases he : (seedsEmails store e p).isEmpty with _ | _
    · simp
    · rw [List.isEmpty_iff] at he
      rw [he] at this
      cases this
  · have : v ∈ seedsPhones store e p := mem_seedsPhones.mpr ⟨s, hs, hv⟩
    rcases hq : (seedsPhones store e p).isEmpty with _ | _
    · simp
    · rw [List.isEmpty_iff] at hq
      rw [hq] at this
      cases this

theorem expansionMatch_eq_any_shares {store : List Contact} {e p : Option String}
    (h : existingContacts store e p ≠ []) (c : Contact) :
    expansionMatch (seedsEmails store e p) (seedsPhones store e p) e p c =
      (existingContacts store e p).any (fun s => sharesValue s c) := by
  unfold expansionMatch
  rw [seeds_lists_not_both_empty h]
  simp only [Bool.false_eq_true, if_false]
  rw [Bool.eq_iff_iff]
  simp only [Bool.or_eq_true, List.any_eq_true]
  constructor
  · rintro (hm | hm)
    · rcases hce : c.email with _ | v
      · rw [hce] at hm; cases hm
      · rw [hce] at hm
        have hv : v ∈ seedsEmails store e p := by simpa using hm
        obtain ⟨s, hs, hsv⟩ := mem_seedsEmails.mp hv
        exact ⟨s, hs, sharesValue_spec.mpr (Or.inl ⟨v, hsv, hce⟩)⟩
    · rcases hcp : c.phoneNumber with _ | v
      · rw [hcp] at hm; cases hm
      · rw [hcp] at hm
        have hv : v ∈ seedsPhones store e p := by simpa using hm
        obtain ⟨s, hs, hsv⟩ := mem_seedsPhones.mp hv
        exact ⟨s, hs, sharesValue_spec.mpr (Or.inr ⟨v, hsv, hcp⟩)⟩
  · rintro ⟨s, hs, hshare⟩
    rcases sharesValue_spec.mp hshare with ⟨v, hsv, hcv⟩ | ⟨v, hsv, hcv⟩
    · refine Or.inl ?_
      rw [hcv]
      simpa using mem_seedsEmails.mpr ⟨s, hs, hsv⟩
    · refine Or.inr ?_
      rw [hcv]
      simpa using mem_seedsPhones.mpr ⟨s, hs, hsv⟩

theorem allLinked_eq_filter_shares (store : List Contact) (e p : Option String)
    (h : existingContacts store e p ≠ []) :
    allLinkedContacts store e p =
      store.filter (fun c => (existingContacts store e p).any (fun s => sharesValue s c)) := by
  unfold allLinkedContacts
  exact List.filter_congr fun c _ => expansionMatch_eq_any_shares h c

theorem seeds_subset_allLinked {store : List Contact} {e p : Option String}
    {s : Contact} (hs : s ∈ existingContacts store e p) :
    s ∈ allLinkedContacts store e p := by
  have hne : existingContacts store e p ≠ [] := fun hnil => by simp [hnil] at hs
  rw [allLinked_eq_filter_shares store e p hne]
  refine List.mem_filter.mpr ⟨List.mem_of_mem_filter hs, ?_⟩
  simp only [List.any_eq_true]
  refine ⟨s, hs, ?_⟩
  have hmatch := List.of_mem_filter (p := buildWhereOrForSingleLookup e p) hs
  rcases buildWhere_spec.mp hmatch with ⟨v, _, hv⟩ | ⟨v, _, hv⟩
  · exact sharesValue_spec.mpr (Or.inl ⟨v, hv, hv⟩)
  · exact sharesValue_spec.mpr (Or.inr ⟨v, hv, hv⟩)

theorem allLinked_subset_store {store : List Contact} {e p : Option String} {c : Contact}
    (hc : c ∈ allLinkedContacts store e p) : c ∈ store :=
  List.mem_of_mem_filter hc

/-! ### Counterexamples and failing runs -/

/-- C1 (counterexample): on the valid request `(email "a", phone "2")` the
store of two unrelated singleton primaries satisfies the claimed invariants,
but the post state downgrades the younger primary without storing any row
connecting the two value sets: the downgraded row's component (under the
claimed value-sharing relation) contains no primary at all, and its
`linkedId` points outside its component. -/
theorem C1_counterexample :
    specComponentInvariantB [exC1a, exC1b] = true ∧
    (truthy (some "a") || truthy (some "2")) = true ∧
    (resolve [exC1a, exC1b] 30 (some "a") (some "2")).2 = [exC1a, exC1bDown] ∧
    sharesValue exC1a exC1bDown = false ∧
    specComponentInvariantB (resolve [exC1a, exC1b] 30 (some "a") (some "2")).2 = false := by
  decide

/-- C2 (counterexample): on the four-row chain `exC2`, the seed lookup for
email "a" followed by the single expansion re-query returns only the first
two rows, while the full connected component of the input is the whole
store; row 4, reachable from the seed only through two further sharing
hops, is missed. -/
theorem C2_counterexample :
    existingContacts exC2 (some "a") none ≠ [] ∧
    inputComponent exC2 (some "a") none = exC2 ∧
    allLinkedContacts exC2 (some "a") none ≠ inputComponent exC2 (some "a") none ∧
    mkContact 4 (some "c") (some "2") LinkPrecedence.secondary (some 1) 40 ∈
      inputComponent exC2 (some "a") none ∧
    mkContact 4 (some "c") (some "2") LinkPrecedence.secondary (some 1) 40 ∉
      allLinkedContacts exC2 (some "a") none := by
  decide

/-- C4 (failing run): merging `exC4` under request `(email "a", phone "2")`
requires two downgrade updates, issued as independent statements with no
transaction. The state after only the first update commits has row 2
downgraded while row 3 still points at it — a secondary referencing a
secondary — a state that is neither the pre state nor the full post state,
so the caller can observe a partial mutation. -/
theorem C4_partial_write_visible :
    specComponentInvariantB exC4 = true ∧
    pickOldest (allLinkedContacts exC4 (some "a") (some "2")) =
      some (mkContact 1 (some "a") (some "1") LinkPrecedence.primary none 10) ∧
    toDowngradeList (allLinkedContacts exC4 (some "a") (some "2"))
        (mkContact 1 (some "a") (some "1") LinkPrecedence.primary none 10) =
      [mkContact 2 (some "b") (some "2") LinkPrecedence.primary none 20,
       mkContact 3 (some "b") (some "3") LinkPrecedence.secondary (some 2) 30] ∧
    applyDowngrades exC4
        ((toDowngradeList (allLinkedContacts exC4 (some "a") (some "2"))
          (mkContact 1 (some "a") (some "1") LinkPrecedence.primary none 10)).take 1) 1 =
      [mkContact 1 (some "a") (some "1") LinkPrecedence.primary none 10,
       mkContact 2 (some "b") (some "2") LinkPrecedence.secondary (some 1) 20,
       mkContact 3 (some "b") (some "3") LinkPrecedence.secondary (some 2) 30] ∧
    specComponentInvariantB (applyDowngrades exC4
      ((toDowngradeList (allLinkedContacts exC4 (some "a") (some "2"))
        (mkContact 1 (some "a") (some "1") LinkPrecedence.primary none 10)).take 1) 1) =
      false ∧
    applyDowngrades exC4
        ((toDowngradeList (allLinkedContacts exC4 (some "a") (some "2"))
          (mkContact 1 (some "a") (some "1") LinkPrecedence.primary none 10)).take 1) 1 ≠
      exC4 ∧
    applyDowngrades exC4
        ((toDowngradeList (allLinkedContacts exC4 (some "a") (some "2"))
          (mkContact 1 (some "a") (some "1") LinkPrecedence.primary none 10)).take 1) 1 ≠
      (resolve exC4 40 (some "a") (some "2")).2 := by
  decide

/-- C5 (counterexample): with the store knowing only `("a", "1")`, the valid
request `(email "", phone "1")` has a pair that is not present verbatim and
an email side — the empty string — appearing on no contact of the (here
fully covered) component, so the claim demands an insert; the route inserts
nothing because the empty string is falsy in the new-information test. -/
theorem C5_counterexample :
    valueComponent [exC5] exC5 = [exC5] ∧
    allLinkedContacts [exC5] (some "") (some "1") = [exC5] ∧
    specNewInfo [exC5] (some "") (some "1") = true ∧
    (truthy (some "") || truthy (some "1")) = true ∧
    (resolve [exC5] 20 (some "") (some "1")).2 = [exC5] := by
  decide

/-- C8 (counterexample): the success payload of the first request on an
empty store nests the contact object under a `contact` key, and that
object's first field is spelled `primaryContatctId` — the claimed key
`primaryContactId` occurs nowhere in the payload. -/
theorem C8_counterexample :
    (resolve [] 1 (some "x") (some "9")).1 = Except.ok exC8view ∧
    successBody exC8view =
      Json.obj
        [("contact",
          Json.obj
            [("primaryContatctId", Json.num 1),
             ("emails", Json.arr [Json.str "x"]),
             ("phoneNumbers", Json.arr [Json.str "9"]),
             ("secondaryContactIds", Json.arr [])])] ∧
    Json.objKeys (successBody exC8view) = ["contact"] ∧
    Json.objKeys
        (Json.obj
          [("primaryContatctId", Json.num 1),
           ("emails", Json.arr [Json.str "x"]),
           ("phoneNumbers", Json.arr [Json.str "9"]),
           ("secondaryContactIds", Json.arr [])]) ≠ claimedShapeKeys ∧
    "primaryContactId" ∉
      Json.objKeys
        (Json.obj
          [("primaryContatctId", Json.num 1),
           ("emails", Json.arr [Json.str "x"]),
           ("phoneNumbers", Json.arr [Json.str "9"]),
           ("secondaryContactIds", Json.arr [])]) := by
  exact ⟨rfl, rfl, rfl, by decide, by decide⟩

/-- C9 (failing interleaving): two requests for the never-seen email "a"
that both run their seed lookup against the empty store both decide to
create a primary; once both writes land, the store holds two primary rows
sharing the email — one component with two primaries — because the route
wraps its read-decide-write sequence in no transaction or lock. -/
theorem C9_race_two_primaries :
    existingContacts [] (some "a") none = [] ∧
    (resolve [] 1 (some "a") none).2 =
      [mkContact 1 (some "a") none LinkPrecedence.primary none 1] ∧
    (resolve [] 1 (some "a") none).2 ++
        [newPrimaryContact ((resolve [] 1 (some "a") none).2) 2 (some "a") none] =
      [mkContact 1 (some "a") none LinkPrecedence.primary none 1,
       mkContact 2 (some "a") none LinkPrecedence.primary none 2] ∧
    sharesValue (mkContact 1 (some "a") none LinkPrecedence.primary none 1)
      (mkContact 2 (some "a") none LinkPrecedence.primary none 2) = true ∧
    (([mkContact 1 (some "a") none LinkPrecedence.primary none 1,
       mkContact 2 (some "a") none LinkPrecedence.primary none 2].filter
        (fun c => c.linkPrecedence == LinkPrecedence.primary)).length = 2) ∧
    specComponentInvariantB
      [mkContact 1 (some "a") none LinkPrecedence.primary none 1,
       mkContact 2 (some "a") none LinkPrecedence.primary none 2] = false := by
  decide

/-! ### C2 (amended) -/

/-- C2 (amended): when at least one seed matches, the set considered after
the expansion re-query equals exactly the store rows sharing an email or a
phone value with some seed — the seeds' one-hop value neighbourhood, which
contains every seed but not, in general, component members reachable only
through two or more sharing hops. -/
theorem C2_amended_expansion_one_hop (store : List Contact) (e p : Option String)
    (h : existingContacts store e p ≠ []) :
    allLinkedContacts store e p =
      store.filter (fun c => (existingContacts store e p).any (fun s => sharesValue s c)) :=
  allLinked_eq_filter_shares store e p h

/-- C2 witness: the amended characterisation evaluated on the chain fixture,
where the one-hop neighbourhood is the first two rows. -/
theorem C2_amended_expansion_one_hop_witness :
    existingContacts exC2 (some "a") none ≠ [] ∧
    allLinkedContacts exC2 (some "a") none =
      exC2.filter (fun c => (existingContacts exC2 (some "a") none).any
        (fun s => sharesValue s c)) :=
  ⟨by decide, C2_amended_expansion_one_hop exC2 (some "a") none (by decide)⟩

/-! ### C3: primary selection -/

theorem foldl_oldest (l : List Contact) (a : Contact) :
    (l.foldl (fun oldest curr => if curr.createdAt < oldest.createdAt then curr else oldest) a
          = a ∨
      (l.foldl (fun oldest curr => if curr.createdAt < oldest.createdAt then curr else oldest) a
          ∈ l ∧
        (l.foldl (fun oldest curr => if curr.createdAt < oldest.createdAt then curr else oldest)
            a).createdAt < a.createdAt)) ∧
    ∀ x ∈ l,
      (l.foldl (fun oldest curr => if curr.createdAt < oldest.createdAt then curr else oldest)
          a).createdAt ≤ x.createdAt := by
  induction l generalizing a with
  | nil => exact ⟨Or.inl rfl, by simp⟩
  | cons c l ih =>
    simp only [List.foldl_cons]
    by_cases h : c.createdAt < a.createdAt
    · rw [if_pos h]
      obtain ⟨ih1, ih2⟩ := ih c
      constructor
      · rcases ih1 with heq | ⟨hm, hlt⟩
        · exact Or.inr ⟨by rw [heq]; exact List.mem_cons_self c l, by rw [heq]; exact h⟩
        · exact Or.inr ⟨List.mem_cons_of_mem _ hm, lt_trans hlt h⟩
      · intro x hx
        rcases List.mem_cons.mp hx with rfl | hx
        · rcases ih1 with heq | ⟨_, hlt⟩
          · rw [heq]
          · exact le_of_lt hlt
        · exact ih2 x hx
    · rw [if_neg h]
      obtain ⟨ih1, ih2⟩ := ih a
      refine ⟨?_, ?_⟩
      · rcases ih1 with heq | ⟨hm, hlt⟩
        · exact Or.inl heq
        · exact Or.inr ⟨List.mem_cons_of_mem _ hm, hlt⟩
      intro x hx
      rcases List.mem_cons.mp hx with rfl | hx
      · rcases ih1 with heq | ⟨_, hlt⟩
        · rw [heq]; exact le_of_not_lt h
        · exact le_trans (le_of_lt hlt) (le_of_not_lt h)
      · exact ih2 x hx

theorem foldl_oldest_lex (l : List Contact) (a : Contact)
    (ha : ∀ x ∈ l, a.id < x.id) (hl : l.Pairwise (fun c d => c.id < d.id)) :
    ∀ x ∈ a :: l,
      x.createdAt =
        (l.foldl (fun oldest curr => if curr.createdAt < oldest.createdAt then curr else oldest)
            a).createdAt →
      (l.foldl (fun oldest curr => if curr.createdAt < oldest.createdAt then curr else oldest)
          a).id ≤ x.id := by
  induction l generalizing a with
  | nil =>
    intro x hx _
    rcases List.mem_cons.mp hx with rfl | hx
    · exact le_refl _
    · cases hx
  | cons c l ih =>
    simp only [List.foldl_cons]
    have hcl : ∀ x ∈ l, c.id < x.id := fun x hx => (List.pairwise_cons.mp hl).1 x hx
    have hll : l.Pairwise (fun c d => c.id < d.id) := (List.pairwise_cons.mp hl).2
    by_cases h : c.createdAt < a.createdAt
    · rw [if_pos h]
      intro x hx heq
      rcases List.mem_cons.mp hx with rfl | hx
      · -- x = a is impossible: the running minimum is below a's createdAt
        obtain ⟨ih1, _⟩ := foldl_oldest l c
        have hle : (l.foldl (fun oldest curr =>
            if curr.createdAt < oldest.createdAt then curr else oldest) c).createdAt ≤
              c.createdAt := by
          rcases ih1 with hq | ⟨_, hlt⟩
          · rw [hq]
          · exact le_of_lt hlt
        omega
      · exact ih c hcl hll x hx heq
    · rw [if_neg h]
      intro x hx heq
      rcases List.mem_cons.mp hx with rfl | hx
      · exact ih _ (fun y hy => ha y (List.mem_cons_of_mem _ hy)) hll _
          (List.mem_cons_self _ _) heq
      rcases List.mem_cons.mp hx with rfl | hx
      · -- x = c
        obtain ⟨ih1, _⟩ := foldl_oldest l a
        rcases ih1 with hq | ⟨_, hlt⟩
        · rw [hq]; exact le_of_lt (ha x (List.mem_cons_self _ _))
        · omega
      · exact ih _ (fun y hy => ha y (List.mem_cons_of_mem _ hy)) hll _
          (List.mem_cons_of_mem _ hx) heq

/-- C3: on an id-sorted store, whenever `reduce` selects a primary from the
non-empty expanded set, that contact belongs to the expanded set, has the
smallest `createdAt` there irrespective of link precedence flags, ties on
`createdAt` are resolved towards the smallest id, and every successful
response of the main path reports exactly its id. -/
theorem C3_primary_is_lex_oldest (store : List Contact) (now : Nat) (e p : Option String)
    (hs : SortedById store) (q : Contact)
    (hq : pickOldest (allLinkedContacts store e p) = some q) :
    q ∈ allLinkedContacts store e p ∧
    (∀ c ∈ allLinkedContacts store e p, q.createdAt ≤ c.createdAt) ∧
    (∀ c ∈ allLinkedContacts store e p, c.createdAt = q.createdAt → q.id ≤ c.id) ∧
    (∀ v post, resolve store now e p = (Except.ok v, post) →
      existingContacts store e p ≠ [] → v.primaryContatctId = q.id) := by
  have hsorted : (allLinkedContacts store e p).Pairwise (fun c d => c.id < d.id) :=
    List.Pairwise.filter _ hs
  rcases hA : allLinkedContacts store e p with _ | ⟨a, rest⟩
  · rw [hA] at hq; cases hq
  have hq' : (a :: rest).foldl
      (fun oldest curr => if curr.createdAt < oldest.createdAt then curr else oldest) a = q := by
    rw [hA] at hq
    simpa [pickOldest] using hq
  have hfold : rest.foldl
      (fun oldest curr => if curr.createdAt < oldest.createdAt then curr else oldest) a = q := by
    rw [← hq']
    simp [List.foldl_cons]
  rw [hA] at hsorted
  have hrest : ∀ x ∈ rest, a.id < x.id := fun x hx => (List.pairwise_cons.mp hsorted).1 x hx
  have hrestp : rest.Pairwise (fun c d => c.id < d.id) := (List.pairwise_cons.mp hsorted).2
  obtain ⟨h1, h2⟩ := foldl_oldest rest a
  rw [hfold] at h1 h2
  have hlex := foldl_oldest_lex rest a hrest hrestp
  rw [hfold] at hlex
  refine ⟨?_, ?_, ?_, ?_⟩
  · rcases h1 with rfl | ⟨hm, _⟩
    · exact List.mem_cons_self _ _
    · exact List.mem_cons_of_mem _ hm
  · intro c hc
    rcases List.mem_cons.mp hc with rfl | hc
    · rcases h1 with rfl | ⟨_, hlt⟩
      · exact le_refl _
      · exact le_of_lt hlt
    · exact h2 c hc
  · intro c hc heq
    exact hlex c hc heq
  · intro v post hres hne
    have hvalid : (!truthy e && !truthy p) = false := by
      by_contra hcon
      have hcon' : (!truthy e && !truthy p) = true := by
        cases hcb : (!truthy e && !truthy p)
        · exact absurd hcb hcon
        · rfl
      rw [resolve, if_pos hcon'] at hres
      cases hres
    have hie : (existingContacts store e p).isEmpty = false := by
      cases hieb : (existingContacts store e p).isEmpty
      · rfl
      · exact absurd (List.isEmpty_iff.mp hieb) hne
    rw [resolve, hvalid] at hres
    simp only [Bool.false_eq_true, if_false] at hres
    rw [hie] at hres
    simp only [Bool.false_eq_true, if_false] at hres
    rw [hq] at hres
    have hfst := congrArg Prod.fst hres
    have hfst' : Except.ok v = (resolveMain store now e p (allLinkedContacts store e p) q).1 :=
      hfst.symm
    simp only [resolveMain] at hfst'
    have := (Except.ok.injEq _ _).mp hfst'
    rw [this]


/-- C3 witness: on the fixture whose oldest row (createdAt 5, id 1) is a
secondary tying the primary (createdAt 5, id 2) on `createdAt`, the selected
contact is the id-1 secondary. -/
theorem C3_primary_is_lex_oldest_witness :
    SortedById exC3 ∧
    pickOldest (allLinkedContacts exC3 (some "a") none) =
      some (mkContact 1 (some "a") (some "1") LinkPrecedence.secondary (some 2) 5) ∧
    (mkContact 1 (some "a") (some "1") LinkPrecedence.secondary (some 2) 5 ∈
        allLinkedContacts exC3 (some "a") none ∧
      (∀ c ∈ allLinkedContacts exC3 (some "a") none,
        (mkContact 1 (some "a") (some "1") LinkPrecedence.secondary (some 2) 5).createdAt ≤
          c.createdAt) ∧
      (∀ c ∈ allLinkedContacts exC3 (some "a") none,
        c.createdAt =
            (mkContact 1 (some "a") (some "1") LinkPrecedence.secondary (some 2) 5).createdAt →
        (mkContact 1 (some "a") (some "1") LinkPrecedence.secondary (some 2) 5).id ≤ c.id) ∧
      (∀ v post, resolve exC3 100 (some "a") none = (Except.ok v, post) →
        existingContacts exC3 (some "a") none ≠ [] →
        v.primaryContatctId =
          (mkContact 1 (some "a") (some "1") LinkPrecedence.secondary (some 2) 5).id)) :=
  ⟨by decide, by decide,
    C3_primary_is_lex_oldest exC3 100 (some "a") none (by decide)
      (mkContact 1 (some "a") (some "1") LinkPrecedence.secondary (some 2) 5) (by decide)⟩

/-! ### Control-flow lemmas for the main path -/

theorem resolve_main_eq (store : List Contact) (now : Nat) (e p : Option String)
    (primary : Contact) (hv : (truthy e || truthy p) = true)
    (hs : existingContacts store e p ≠ [])
    (hp : pickOldest (allLinkedContacts store e p) = some primary) :
    resolve store now e p =
      resolveMain store now e p (allLinkedContacts store e p) primary := by
  have hvalid : (!truthy e && !truthy p) = false := by
    cases he : truthy e <;> cases hq : truthy p <;> simp_all
  have hie : (existingContacts store e p).isEmpty = false := by
    cases hieb : (existingContacts store e p).isEmpty
    · rfl
    · exact absurd (List.isEmpty_iff.mp hieb) hs
  rw [resolve, hvalid]
  simp only [Bool.false_eq_true, if_false]
  rw [hie]
  simp only [Bool.false_eq_true, if_false]
  rw [hp]

theorem resolveMain_post (store : List Contact) (now : Nat) (e p : Option String)
    (all : List Contact) (primary : Contact) :
    (resolveMain store now e p all primary).2 =
      if introducesNewInfoB all e p then
        applyDowngrades store (toDowngradeList all primary) primary.id ++
          [mkContact
            (nextId (applyDowngrades store (toDowngradeList all primary) primary.id))
            e p LinkPrecedence.secondary (some primary.id) now]
      else applyDowngrades store (toDowngradeList all primary) primary.id := rfl

theorem applyDowngrades_length (l store : List Contact) (pid : Nat) :
    (applyDowngrades store l pid).length = store.length := by
  have h := congrArg List.length (applyDowngrades_map_id l store pid)
  simpa using h

/-! ### C5 (amended) -/

theorem introducesNewInfoB_iff (all : List Contact) (e p : Option String) :
    introducesNewInfoB all e p = true ↔
      ((∀ c ∈ all, ¬(c.email = e ∧ c.phoneNumber = p)) ∧
       ((∃ v, e = some v ∧ v ≠ "" ∧ ∀ c ∈ all, c.email ≠ some v) ∨
        (∃ v, p = some v ∧ v ≠ "" ∧ ∀ c ∈ all, c.phoneNumber ≠ some v))) := by
  unfold introducesNewInfoB
  rcases e with _ | v <;> rcases p with _ | w
  · simp [truthy]
  · by_cases hw : w = ""
    · subst hw
      simp [truthy, eq_comm]
    · simp [truthy, hw, List.any_eq_true]
      exact fun _ => ⟨fun h c hc hce hcp => h c hc hce.symm hcp.symm,
        fun h c hc hce hcp => h c hc hce.symm hcp.symm⟩
  · by_cases hv : v = ""
    · subst hv
      simp [truthy, eq_comm]
    · simp [truthy, hv, List.any_eq_true]
      exact fun _ => ⟨fun h c hc hce hcp => h c hc hce.symm hcp.symm,
        fun h c hc hce hcp => h c hc hce.symm hcp.symm⟩
  · by_cases hv : v = "" <;> by_cases hw : w = ""
    · subst hv; subst hw
      simp [truthy, eq_comm]
    · subst hv
      simp [truthy, hw, List.any_eq_true]
      exact fun _ => ⟨fun h c hc hce hcp => h c hc hce.symm hcp.symm,
        fun h c hc hce hcp => h c hc hce.symm hcp.symm⟩
    · subst hw
      simp [truthy, hv, List.any_eq_true]
      exact fun _ => ⟨fun h c hc hce hcp => h c hc hce.symm hcp.symm,
        fun h c hc hce hcp => h c hc hce.symm hcp.symm⟩
    · simp [truthy, hv, hw, List.any_eq_true]
      exact fun _ => ⟨fun h c hc hce hcp => h c hc hce.symm hcp.symm,
        fun h c hc hce hcp => h c hc hce.symm hcp.symm⟩

/-- C5 (amended): with seeds present, the route appends a row — a secondary
carrying the incoming pair verbatim, linked to the selected primary — iff
the pair is not present verbatim on any contact of the considered
(expansion) set and at least one side that is a non-empty string appears on
no contact of that set; otherwise the storage only receives the downgrade
updates and no row is created. An empty-string side never counts as new
information. -/
theorem C5_amended_new_info (store : List Contact) (now : Nat) (e p : Option String)
    (hv : (truthy e || truthy p) = true)
    (hs : existingContacts store e p ≠ [])
    (primary : Contact)
    (hp : pickOldest (allLinkedContacts store e p) = some primary) :
    (introducesNewInfoB (allLinkedContacts store e p) e p = true ↔
      ((∀ c ∈ allLinkedContacts store e p, ¬(c.email = e ∧ c.phoneNumber = p)) ∧
       ((∃ v, e = some v ∧ v ≠ "" ∧ ∀ c ∈ allLinkedContacts store e p, c.email ≠ some v) ∨
        (∃ v, p = some v ∧ v ≠ "" ∧
          ∀ c ∈ allLinkedContacts store e p, c.phoneNumber ≠ some v)))) ∧
    (introducesNewInfoB (allLinkedContacts store e p) e p = true →
      (resolve store now e p).2 =
        applyDowngrades store (toDowngradeList (allLinkedContacts store e p) primary)
            primary.id ++
          [mkContact
            (nextId (applyDowngrades store
              (toDowngradeList (allLinkedContacts store e p) primary) primary.id))
            e p LinkPrecedence.secondary (some primary.id) now]) ∧
    (introducesNewInfoB (allLinkedContacts store e p) e p = false →
      (resolve store now e p).2 =
        applyDowngrades store (toDowngradeList (allLinkedContacts store e p) primary)
          primary.id) ∧
    ((resolve store now e p).2.length = store.length + 1 ↔
      introducesNewInfoB (allLinkedContacts store e p) e p = true) := by
  have hres := resolve_main_eq store now e p primary hv hs hp
  have hpost := resolveMain_post store now e p (allLinkedContacts store e p) primary
  refine ⟨introducesNewInfoB_iff _ e p, ?_, ?_, ?_⟩
  · intro hintro
    rw [hres, hpost, if_pos hintro]
  · intro hintro
    rw [hres, hpost, hintro]
    simp
  · constructor
    · intro hlen
      cases hintro : introducesNewInfoB (allLinkedContacts store e p) e p
      · rw [hres, hpost, hintro] at hlen
        simp only [Bool.false_eq_true, if_false] at hlen
        rw [applyDowngrades_length] at hlen
        omega
      · rfl
    · intro hintro
      rw [hres, hpost, if_pos hintro]
      simp [applyDowngrades_length]

/-- C5 witness: on a one-row store knowing `("a","1")`, the request
`("b","1")` satisfies the amended condition and the post state is the
downgrade image plus exactly the new secondary row. -/
theorem C5_amended_new_info_witness :
    introducesNewInfoB (allLinkedContacts [exC5w] (some "b") (some "1")) (some "b")
        (some "1") = true ∧
    (resolve [exC5w] 20 (some "b") (some "1")).2 =
      applyDowngrades [exC5w]
          (toDowngradeList (allLinkedContacts [exC5w] (some "b") (some "1")) exC5w) exC5w.id ++
        [mkContact
          (nextId (applyDowngrades [exC5w]
            (toDowngradeList (allLinkedContacts [exC5w] (some "b") (some "1")) exC5w)
            exC5w.id))
          (some "b") (some "1") LinkPrecedence.secondary (some exC5w.id) 20] :=
  ⟨by decide,
    (C5_amended_new_info [exC5w] 20 (some "b") (some "1") (by decide) (by decide) exC5w
      (by decide)).2.1 (by decide)⟩

/-! ### C10 -/

theorem resolve_new_row_fields (store : List Contact) (now : Nat) (e p : Option String) :
    ∀ c ∈ (resolve store now e p).2, c.id ∉ store.map Contact.id →
      c.email = e ∧ c.phoneNumber = p := by
  intro c hc hid
  rcases resolve_shape store now e p with h | h | ⟨primary, _, h⟩
  · rw [h] at hc
    exact absurd (List.mem_map_of_mem Contact.id hc) hid
  · rw [h] at hc
    rcases List.mem_append.mp hc with hc | hc
    · exact absurd (List.mem_map_of_mem Contact.id hc) hid
    · rcases List.mem_singleton.mp hc with rfl
      exact ⟨rfl, rfl⟩
  · rw [h] at hc
    cases hi : introducesNewInfoB (allLinkedContacts store e p) e p with
    | false =>
      rw [hi] at hc
      simp only [Bool.false_eq_true, if_false] at hc
      obtain ⟨d, hd, hcd, -⟩ := mem_applyDowngrades_fields hc
      rw [hcd] at hid
      exact absurd (List.mem_map_of_mem Contact.id hd) hid
    | true =>
      rw [hi] at hc
      simp only [if_true] at hc
      rcases List.mem_append.mp hc with hc | hc
      · obtain ⟨d, hd, hcd, -⟩ := mem_applyDowngrades_fields hc
        rw [hcd] at hid
        exact absurd (List.mem_map_of_mem Contact.id hd) hid
      · rcases List.mem_singleton.mp hc with rfl
        exact ⟨rfl, rfl⟩

/-- C10: a request pairing an empty-string side with a non-empty side is
accepted, the empty string participates in the seed lookup as an ordinary
equality test (`{ email: "" }` resp. `{ phoneNumber: "" }`), and every row
the request creates stores the empty string verbatim in that field. -/
theorem C10_empty_string_literal (store : List Contact) (now : Nat) (s : String)
    (hs : s ≠ "") :
    (∃ v, (resolve store now (some "") (some s)).1 = Except.ok v) ∧
    (∃ v, (resolve store now (some s) (some "")).1 = Except.ok v) ∧
    (∀ c : Contact, buildWhereOrForSingleLookup (some "") (some s) c =
      (c.email == some "" || c.phoneNumber == some s)) ∧
    (∀ c : Contact, buildWhereOrForSingleLookup (some s) (some "") c =
      (c.email == some s || c.phoneNumber == some "")) ∧
    (∀ c ∈ (resolve store now (some "") (some s)).2,
      c.id ∉ store.map Contact.id → c.email = some "" ∧ c.phoneNumber = some s) ∧
    (∀ c ∈ (resolve store now (some s) (some "")).2,
      c.id ∉ store.map Contact.id → c.email = some s ∧ c.phoneNumber = some "") := by
  have hts : truthy (some s) = true := by
    simp [truthy, hs]
  refine ⟨?_, ?_, fun c => rfl, fun c => rfl,
    resolve_new_row_fields store now (some "") (some s),
    resolve_new_row_fields store now (some s) (some "")⟩
  · exact resolve_ok_of_valid store now (some "") (some s) (by rw [hts]; simp)
  · exact resolve_ok_of_valid store now (some s) (some "") (by rw [hts]; simp)

/-- C10 witness: with phone "5" and email "", a store whose only row carries
email "" is matched by the seed predicate, the request succeeds, and on an
empty store the created row stores the empty string verbatim. -/
theorem C10_empty_string_literal_witness :
    (∃ v, (resolve [] 7 (some "") (some exC10phone)).1 = Except.ok v) ∧
    (∃ v, (resolve [] 7 (some exC10phone) (some "")).1 = Except.ok v) ∧
    (∀ c : Contact, buildWhereOrForSingleLookup (some "") (some exC10phone) c =
      (c.email == some "" || c.phoneNumber == some exC10phone)) ∧
    (∀ c : Contact, buildWhereOrForSingleLookup (some exC10phone) (some "") c =
      (c.email == some exC10phone || c.phoneNumber == some "")) ∧
    (∀ c ∈ (resolve [] 7 (some "") (some exC10phone)).2,
      c.id ∉ ([] : List Contact).map Contact.id →
        c.email = some "" ∧ c.phoneNumber = some exC10phone) ∧
    (∀ c ∈ (resolve [] 7 (some exC10phone) (some "")).2,
      c.id ∉ ([] : List Contact).map Contact.id →
        c.email = some exC10phone ∧ c.phoneNumber = some "") :=
  C10_empty_string_literal [] 7 exC10phone (by decide)

/-! ### C8 (amended) -/

theorem valid_of_ok {store : List Contact} {now : Nat} {e p : Option String} {v : ContactView}
    (h : (resolve store now e p).1 = Except.ok v) : (truthy e || truthy p) = true := by
  cases hb : (!truthy e && !truthy p) with
  | false => exact truthy_or_of_not_both hb
  | true =>
    rw [resolve, if_pos hb] at h
    cases h

/-- C8 (amended): every success payload nests, under the single key
`contact`, an object whose keys are exactly `primaryContatctId` (the
source's spelling), `emails`, `phoneNumbers` and `secondaryContactIds`; the
reported id is the fresh id when no seed matched, and the selected oldest
contact's id on the main path. -/
theorem C8_amended_shape (store : List Contact) (now : Nat) (e p : Option String)
    (v : ContactView) (h : (resolve store now e p).1 = Except.ok v) :
    Json.objKeys (successBody v) = ["contact"] ∧
    (∀ inner, successBody v = Json.obj [("contact", inner)] →
      Json.objKeys inner =
        ["primaryContatctId", "emails", "phoneNumbers", "secondaryContactIds"]) ∧
    (existingContacts store e p = [] → v.primaryContatctId = nextId store) ∧
    (∀ q, existingContacts store e p ≠ [] →
      pickOldest (allLinkedContacts store e p) = some q → v.primaryContatctId = q.id) := by
  refine ⟨rfl, ?_, ?_, ?_⟩
  · intro inner hinner
    simp only [successBody, Json.obj.injEq, List.cons.injEq, Prod.mk.injEq, and_true,
      true_and] at hinner
    rw [← hinner]
    rfl
  · intro hseeds
    have hvalid : (!truthy e && !truthy p) = false := by
      cases hb : (!truthy e && !truthy p)
      · rfl
      · rw [resolve, if_pos hb] at h
        cases h
    have hie : (existingContacts store e p).isEmpty = true := List.isEmpty_iff.mpr hseeds
    rw [resolve, hvalid] at h
    simp only [Bool.false_eq_true, if_false] at h
    rw [hie] at h
    simp only [if_true] at h
    have hv := (Except.ok.injEq _ _).mp h
    rw [← hv]
    rfl
  · intro q hseeds hq
    have hres := resolve_main_eq store now e p q (valid_of_ok h) hseeds hq
    rw [hres] at h
    have hv := (Except.ok.injEq _ _).mp h
    rw [← hv]

/-- C8 witness: the amended shape facts evaluated on a merge request against
the two-row fixture, whose response id is the fixture primary's id 1. -/
theorem C8_amended_shape_witness :
    Json.objKeys (successBody
      { primaryContatctId := 1, emails := ["a", "b", "c"], phoneNumbers := ["1"],
        secondaryContactIds := [2, 3] }) = ["contact"] ∧
    (∀ inner, successBody
        { primaryContatctId := 1, emails := ["a", "b", "c"], phoneNumbers := ["1"],
          secondaryContactIds := [2, 3] } = Json.obj [("contact", inner)] →
      Json.objKeys inner =
        ["primaryContatctId", "emails", "phoneNumbers", "secondaryContactIds"]) ∧
    (existingContacts exC8w (some "c") (some "1") = [] →
      ContactView.primaryContatctId
        { primaryContatctId := 1, emails := ["a", "b", "c"], phoneNumbers := ["1"],
          secondaryContactIds := [2, 3] } = nextId exC8w) ∧
    (∀ q, existingContacts exC8w (some "c") (some "1") ≠ [] →
      pickOldest (allLinkedContacts exC8w (some "c") (some "1")) = some q →
      ContactView.primaryContatctId
        { primaryContatctId := 1, emails := ["a", "b", "c"], phoneNumbers := ["1"],
          secondaryContactIds := [2, 3] } = q.id) :=
  C8_amended_shape exC8w 30 (some "c") (some "1")
    { primaryContatctId := 1, emails := ["a", "b", "c"], phoneNumbers := ["1"],
      secondaryContactIds := [2, 3] } rfl

/-! ### Support lemmas for the snapshot and ordering facts -/

theorem lt_nextId (store : List Contact) : ∀ c ∈ store, c.id < nextId store := by
  unfold nextId
  induction store with
  | nil => intro c hc; cases hc
  | cons d l ih =>
    intro c hc
    rcases List.mem_cons.mp hc with rfl | hc
    · simp only [List.foldr_cons]
      omega
    · have := ih c hc
      simp only [List.foldr_cons]
      omega

theorem applyDowngrades_eq_map (l store : List Contact) (pid : Nat) :
    applyDowngrades store l pid =
      store.map (fun c =>
        if l.any (fun d => d.id == c.id) then
          { c with linkPrecedence := LinkPrecedence.secondary, linkedId := some pid }
        else c) := by
  induction l generalizing store with
  | nil =>
    simp only [applyDowngrades, List.foldl_nil, List.any_nil, Bool.false_eq_true, if_false]
    exact (List.map_id _).symm
  | cons d l ih =>
    show applyDowngrades (updateContact store d.id LinkPrecedence.secondary (some pid)) l pid = _
    rw [ih, updateContact, List.map_map]
    refine List.map_congr_left ?_
    intro c _
    by_cases hcd : c.id = d.id
    · simp only [Function.comp_apply, hcd, beq_self_eq_true, if_true, List.any_cons]
      by_cases hl : l.any (fun x => x.id == c.id)
      · simp only [hcd] at hl
        simp [hl]
      · simp only [hcd] at hl
        simp [hl]
    · have hbd : (c.id == d.id) = false := beq_eq_false_iff_ne.mpr hcd
      have hbd' : (d.id == c.id) = false := beq_eq_false_iff_ne.mpr (Ne.symm hcd)
      simp only [Function.comp_apply, hbd, Bool.false_eq_true, if_false, List.any_cons, hbd',
        Bool.false_or]

theorem sortedById_of_map_id_eq {s1 s2 : List Contact}
    (h : s1.map Contact.id = s2.map Contact.id) (hs : SortedById s1) : SortedById s2 := by
  have h1 : (s1.map Contact.id).Pairwise (· < ·) := (List.pairwise_map).mpr hs
  rw [h] at h1
  exact (List.pairwise_map).mp h1

theorem id_inj_of_sorted {store : List Contact} (hs : SortedById store) :
    ∀ c ∈ store, ∀ d ∈ store, c.id = d.id → c = d := by
  have hnd : (store.map Contact.id).Nodup := by
    have h1 : (store.map Contact.id).Pairwise (· < ·) := (List.pairwise_map).mpr hs
    exact h1.imp Nat.ne_of_lt
  intro c hc d hd hcd
  exact List.inj_on_of_nodup_map hnd hc hd hcd

theorem foldl_head_of_mono (a : Contact) (rest : List Contact)
    (h : ∀ x ∈ rest, a.createdAt ≤ x.createdAt) :
    rest.foldl (fun oldest curr => if curr.createdAt < oldest.createdAt then curr else oldest) a
      = a := by
  induction rest with
  | nil => rfl
  | cons c l ih =>
    simp only [List.foldl_cons]
    have hca : ¬c.createdAt < a.createdAt := not_lt.mpr (h c (List.mem_cons_self _ _))
    rw [if_neg hca]
    exact ih fun x hx => h x (List.mem_cons_of_mem _ hx)

theorem head_filter_sorted {l : List Contact} {P : Contact → Bool} {q : Contact}
    (hs : SortedById l) (hq : q ∈ l) (hPq : P q = true)
    (hmin : ∀ x ∈ l, P x = true → q.id ≤ x.id) :
    (l.filter P).head? = some q := by
  induction l with
  | nil => cases hq
  | cons a rest ih =>
    rcases List.mem_cons.mp hq with rfl | hq
    · rw [List.filter_cons, if_pos hPq]
      rfl
    · have haq : q.id ≤ a.id ∨ True := Or.inr trivial
      rw [List.filter_cons]
      by_cases hPa : P a = true
      · have h1 : q.id ≤ a.id := hmin a (List.mem_cons_self _ _) hPa
        have h2 : a.id < q.id := (List.pairwise_cons.mp hs).1 q hq
        omega
      · have hPa' : P a = false := by
          cases hpb : P a
          · rfl
          · exact absurd hpb hPa
        rw [hPa']
        simp only [Bool.false_eq_true, if_false]
        exact ih (List.pairwise_cons.mp hs).2 hq
          (fun x hx hPx => hmin x (List.mem_cons_of_mem _ hx) hPx)

theorem nodup_prependIfPresent {arr : List String} (h : arr.Nodup) (val : Option String) :
    (prependIfPresent arr val).Nodup := by
  rcases val with _ | v
  · exact h
  · simp only [prependIfPresent]
    by_cases hv : (v == "") = true
    · rw [if_pos hv]; exact h
    · rw [if_neg hv]
      refine List.nodup_cons.mpr ⟨?_, List.Nodup.filter _ h⟩
      intro hmem
      have := List.of_mem_filter hmem
      simp at this

theorem head_uniqueNonNull_cons (s : String) (l : List (Option String)) :
    (uniqueNonNull (some s :: l)).head? = some s := by
  simp [uniqueNonNull, dedupKeepFirst, dedupKeepFirstAux]

theorem prependIfPresent_head_ne {arr : List String} {s : String} (hs : s ≠ "") :
    (prependIfPresent arr (some s)).head? = some s := by
  simp only [prependIfPresent]
  have hb : (s == "") = false := beq_eq_false_iff_ne.mpr hs
  rw [hb]
  simp

/-! ### C7: deduplication and primary-first ordering -/

theorem resolveMain_view (store : List Contact) (now : Nat) (e p : Option String)
    (all : List Contact) (primary : Contact) :
    (resolveMain store now e p all primary).1 =
      Except.ok
        { primaryContatctId := primary.id
          emails := prependIfPresent
            (uniqueNonNull (((resolveMain store now e p all primary).2.filter
              (fun c => c.id == primary.id || c.linkedId == some primary.id)).map (·.email)))
            primary.email
          phoneNumbers := prependIfPresent
            (uniqueNonNull (((resolveMain store now e p all primary).2.filter
              (fun c => c.id == primary.id || c.linkedId == some primary.id)).map
                (·.phoneNumber)))
            primary.phoneNumber
          secondaryContactIds :=
            (((resolveMain store now e p all primary).2.filter
              (fun c => c.id == primary.id || c.linkedId == some primary.id)).filter
                (fun c => c.linkPrecedence == LinkPrecedence.secondary)).map (·.id) } := rfl

theorem mem_toDowngrade_ne {all : List Contact} {primary : Contact} :
    ∀ d ∈ toDowngradeList all primary, d.id ≠ primary.id := by
  intro d hd
  have hcond := List.of_mem_filter hd
  have h1 : (d.id != primary.id) = true := by
    cases hb : (d.id != primary.id)
    · rw [hb] at hcond; simp at hcond
    · rfl
  simpa using h1

theorem mem_toDowngrade_sub {all : List Contact} {primary : Contact} :
    ∀ d ∈ toDowngradeList all primary, d ∈ all := fun _ hd => List.mem_of_mem_filter hd

/-- C7: on a well-formed store (rows in id order, timestamps monotone with
insertion, references pointing only at older rows), every successful
response carries duplicate-free email and phone lists, and the row carrying
the reported primary id contributes its own email (resp. phone), when
non-null, as the first element of the respective list. -/
theorem C7_dedup_primary_first (store : List Contact) (now : Nat) (e p : Option String)
    (v : ContactView) (post : List Contact)
    (hs : SortedById store) (hm : CreatedAtMono store)
    (hl : ∀ c ∈ store, linkIdLt c = true)
    (h : resolve store now e p = (Except.ok v, post)) :
    v.emails.Nodup ∧ v.phoneNumbers.Nodup ∧
    (∀ c ∈ post, c.id = v.primaryContatctId →
      (∀ s, c.email = some s → v.emails.head? = some s) ∧
      (∀ s, c.phoneNumber = some s → v.phoneNumbers.head? = some s)) := by
  have hvalid : (!truthy e && !truthy p) = false := by
    cases hb : (!truthy e && !truthy p)
    · rfl
    · rw [resolve, if_pos hb] at h
      cases h
  by_cases hseeds : existingContacts store e p = []
  · -- no-seed branch: a fresh primary is created and returned alone
    have hie : (existingContacts store e p).isEmpty = true := List.isEmpty_iff.mpr hseeds
    rw [resolve, hvalid] at h
    simp only [Bool.false_eq_true, if_false] at h
    rw [hie] at h
    simp only [if_true] at h
    rw [Prod.mk.injEq] at h
    obtain ⟨h1, h2⟩ := h
    have hv := (Except.ok.injEq _ _).mp h1
    subst hv
    refine ⟨nodup_uniqueNonNull _, nodup_uniqueNonNull _, ?_⟩
    intro c hc hcid
    rw [← h2] at hc
    rcases List.mem_append.mp hc with hc | hc
    · exfalso
      have := lt_nextId store c hc
      have hcid' : c.id = nextId store := hcid
      omega
    · rcases List.mem_singleton.mp hc with rfl
      constructor
      · intro s hes
        show (uniqueNonNull [(newPrimaryContact store now e p).email]).head? = some s
        rw [hes]
        exact head_uniqueNonNull_cons s []
      · intro s hps
        show (uniqueNonNull [(newPrimaryContact store now e p).phoneNumber]).head? = some s
        rw [hps]
        exact head_uniqueNonNull_cons s []
  · -- main branch
    have hAne : allLinkedContacts store e p ≠ [] := by
      obtain ⟨s0, hs0⟩ := List.exists_mem_of_ne_nil _ hseeds
      intro hnil
      have := seeds_subset_allLinked hs0
      rw [hnil] at this
      cases this
    obtain ⟨a, rest, hA⟩ := List.exists_cons_of_ne_nil hAne
    have hApw : SortedById (a :: rest) := hA ▸ List.Pairwise.filter _ hs
    have hAmono : CreatedAtMono (a :: rest) := hA ▸ List.Pairwise.filter _ hm
    have hfold : rest.foldl
        (fun oldest curr => if curr.createdAt < oldest.createdAt then curr else oldest) a = a :=
      foldl_head_of_mono a rest (List.pairwise_cons.mp hAmono).1
    have hpick : pickOldest (allLinkedContacts store e p) = some a := by
      rw [hA]
      simp [pickOldest, List.foldl_cons, hfold]
    have hres := resolve_main_eq store now e p a (truthy_or_of_not_both hvalid) hseeds hpick
    rw [hres] at h
    rw [Prod.mk.injEq] at h
    obtain ⟨h1, h2⟩ := h
    rw [resolveMain_view] at h1
    have hv := (Except.ok.injEq _ _).mp h1
    rw [h2] at hv
    subst hv
    -- structural facts about the post storage state
    have ha_in_A : a ∈ allLinkedContacts store e p := by rw [hA]; exact List.mem_cons_self _ _
    have ha_in_store : a ∈ store := allLinked_subset_store ha_in_A
    have hrest_lt : ∀ d ∈ rest, a.id < d.id := (List.pairwise_cons.mp hApw).1
    have hAid_le : ∀ d ∈ allLinkedContacts store e p, a.id ≤ d.id := by
      intro d hd
      rw [hA] at hd
      rcases List.mem_cons.mp hd with rfl | hd
      · exact le_refl _
      · exact le_of_lt (hrest_lt d hd)
    have hdown := applyDowngrades_eq_map
      (toDowngradeList (allLinkedContacts store e p) a) store a.id
    have hst1_ids := applyDowngrades_map_id
      (toDowngradeList (allLinkedContacts store e p) a) store a.id
    have hst1_sorted : SortedById (applyDowngrades store
        (toDowngradeList (allLinkedContacts store e p) a) a.id) :=
      sortedById_of_map_id_eq hst1_ids.symm hs
    have ha_fix : (if (toDowngradeList (allLinkedContacts store e p) a).any
          (fun d => d.id == a.id) then
        { a with linkPrecedence := LinkPrecedence.secondary, linkedId := some a.id }
      else a) = a := by
      have hany : (toDowngradeList (allLinkedContacts store e p) a).any
          (fun d => d.id == a.id) = false := by
        rw [List.any_eq_false]
        intro d hd
        have := mem_toDowngrade_ne d hd
        simpa using this
      rw [hany]
      simp
    have ha_st1 : a ∈ applyDowngrades store
        (toDowngradeList (allLinkedContacts store e p) a) a.id := by
      rw [hdown]
      exact List.mem_map.mpr ⟨a, ha_in_store, ha_fix⟩
    have hst1_link : ∀ c ∈ applyDowngrades store
        (toDowngradeList (allLinkedContacts store e p) a) a.id,
        linkIdLt c = true ∧ (c.linkedId = some a.id → c.id = a.id ∨ a.id < c.id) := by
      rw [hdown]
      intro c hc
      obtain ⟨d, hd, hdc⟩ := List.mem_map.mp hc
      by_cases hcond : (toDowngradeList (allLinkedContacts store e p) a).any
          (fun x => x.id == d.id) = true
      · rw [if_pos hcond] at hdc
        obtain ⟨x, hx, hxd⟩ := List.any_eq_true.mp hcond
        have hxd' : x.id = d.id := by simpa using hxd
        have hx_store : x ∈ store :=
          allLinked_subset_store (mem_toDowngrade_sub x hx)
        have hxd2 : x = d := id_inj_of_sorted hs x hx_store d hd hxd'
        subst hxd2
        have hx_ne : x.id ≠ a.id := mem_toDowngrade_ne x hx
        have hx_A : x ∈ allLinkedContacts store e p := mem_toDowngrade_sub x hx
        have hx_gt : a.id < x.id := by
          have := hAid_le x hx_A
          omega
        constructor
        · rw [← hdc]
          simp only [linkIdLt]
          simpa using hx_gt
        · intro _
          rw [← hdc]
          exact Or.inr hx_gt
      · have hcond' : (toDowngradeList (allLinkedContacts store e p) a).any
            (fun x => x.id == d.id) = false := by
          cases hb : (toDowngradeList (allLinkedContacts store e p) a).any
              (fun x => x.id == d.id)
          · rfl
          · exact absurd hb hcond
        rw [hcond'] at hdc
        simp only [Bool.false_eq_true, if_false] at hdc
        subst hdc
        refine ⟨hl d hd, ?_⟩
        intro hlink
        have hld := hl d hd
        simp only [linkIdLt, hlink] at hld
        right
        simpa using hld
    refine ⟨nodup_prependIfPresent (nodup_uniqueNonNull _) _,
      nodup_prependIfPresent (nodup_uniqueNonNull _) _, ?_⟩
    -- the post state: either store1 or store1 plus the fresh secondary
    have hpost2 : post = (resolveMain store now e p (allLinkedContacts store e p) a).2 :=
      h2.symm
    rw [resolveMain_post] at hpost2
    have hsorted2 : SortedById post ∧ a ∈ post ∧
        (∀ c ∈ post, c.linkedId = some a.id → c.id = a.id ∨ a.id < c.id) := by
      cases hi : introducesNewInfoB (allLinkedContacts store e p) e p
      · rw [hi] at hpost2
        simp only [Bool.false_eq_true, if_false] at hpost2
        subst hpost2
        exact ⟨hst1_sorted, ha_st1, fun c hc hlink => (hst1_link c hc).2 hlink⟩
      · rw [hi] at hpost2
        simp only [if_true] at hpost2
        subst hpost2
        refine ⟨?_, List.mem_append_left _ ha_st1, ?_⟩
        · refine List.pairwise_append.mpr ⟨hst1_sorted, List.pairwise_singleton _ _, ?_⟩
          intro c hc d hd
          rcases List.mem_singleton.mp hd with rfl
          exact lt_nextId _ c hc
        · intro c hc hlink
          rcases List.mem_append.mp hc with hc | hc
          · exact (hst1_link c hc).2 hlink
          · rcases List.mem_singleton.mp hc with rfl
            right
            exact lt_nextId _ a ha_st1
    obtain ⟨hpost_sorted, ha_post, hpost_link⟩ := hsorted2
    -- the snapshot filter starts with the primary
    have hhead : (post.filter
        (fun c => c.id == a.id || c.linkedId == some a.id)).head? = some a := by
      refine head_filter_sorted hpost_sorted ha_post (by simp) ?_
      intro x hx hPx
      have hPx' : x.id = a.id ∨ x.linkedId = some a.id := by simpa using hPx
      rcases hPx' with hx1 | hx2
      · omega
      · rcases hpost_link x hx hx2 with heq | hlt
        · omega
        · omega
    obtain ⟨tl, htl⟩ : ∃ tl, post.filter
        (fun c => c.id == a.id || c.linkedId == some a.id) = a :: tl := by
      cases hf : post.filter (fun c => c.id == a.id || c.linkedId == some a.id) with
      | nil => rw [hf] at hhead; cases hhead
      | cons b tl =>
        rw [hf] at hhead
        have : b = a := by simpa using hhead
        exact ⟨tl, by rw [this]⟩
    -- conclusion for the row carrying the primary id
    intro c hc hcid
    have hca : c = a := by
      have hcid' : c.id = a.id := hcid
      exact id_inj_of_sorted hpost_sorted c hc a ha_post hcid'
    constructor
    · intro s hes
      have hes' : a.email = some s := by rw [← hca]; exact hes
      show (prependIfPresent (uniqueNonNull ((post.filter
        (fun x => x.id == a.id || x.linkedId == some a.id)).map (·.email))) a.email).head? =
          some s
      by_cases hse : s = ""
      · rw [hes', hse]
        simp only [prependIfPresent]
        rw [if_pos (by rfl)]
        rw [htl]
        simp only [List.map_cons]
        rw [hes', hse]
        exact head_uniqueNonNull_cons "" _
      · rw [hes']
        exact prependIfPresent_head_ne hse
    · intro s hps
      have hps' : a.phoneNumber = some s := by rw [← hca]; exact hps
      show (prependIfPresent (uniqueNonNull ((post.filter
        (fun x => x.id == a.id || x.linkedId == some a.id)).map (·.phoneNumber)))
          a.phoneNumber).head? = some s
      by_cases hse : s = ""
      · rw [hps', hse]
        simp only [prependIfPresent]
        rw [if_pos (by rfl)]
        rw [htl]
        simp only [List.map_cons]
        rw [hps', hse]
        exact head_uniqueNonNull_cons "" _
      · rw [hps']
        exact prependIfPresent_head_ne hse

/-- C7 witness: the phone-only lookup on the two-row fixture returns
deduplicated lists with the primary's email "a" first. -/
theorem C7_dedup_primary_first_witness :
    (ContactView.emails
      { primaryContatctId := 1, emails := ["a", "b"], phoneNumbers := ["1"],
        secondaryContactIds := [2] }).Nodup ∧
    (ContactView.phoneNumbers
      { primaryContatctId := 1, emails := ["a", "b"], phoneNumbers := ["1"],
        secondaryContactIds := [2] }).Nodup ∧
    (∀ c ∈ exC7, c.id =
        ContactView.primaryContatctId
          { primaryContatctId := 1, emails := ["a", "b"], phoneNumbers := ["1"],
            secondaryContactIds := [2] } →
      (∀ s, c.email = some s →
        (ContactView.emails
          { primaryContatctId := 1, emails := ["a", "b"], phoneNumbers := ["1"],
            secondaryContactIds := [2] }).head? = some s) ∧
      (∀ s, c.phoneNumber = some s →
        (ContactView.phoneNumbers
          { primaryContatctId := 1, emails := ["a", "b"], phoneNumbers := ["1"],
            secondaryContactIds := [2] }).head? = some s)) :=
  C7_dedup_primary_first exC7 50 none (some "1")
    { primaryContatctId := 1, emails := ["a", "b"], phoneNumbers := ["1"],
      secondaryContactIds := [2] }
    exC7 (by decide) (by decide) (by decide) rfl

/-! ### C1 (amended): connectivity infrastructure -/

theorem edgeB_symm (c d : Contact) : edgeB c d = edgeB d c := by
  unfold edgeB
  rw [sharesValue_comm]
  rw [Bool.eq_iff_iff]
  simp only [Bool.or_eq_true]
  constructor
  · rintro ((h | h) | h)
    · exact Or.inl (Or.inl h)
    · exact Or.inr h
    · exact Or.inl (Or.inr h)
  · rintro ((h | h) | h)
    · exact Or.inl (Or.inl h)
    · exact Or.inr h
    · exact Or.inl (Or.inr h)

theorem conn_symm {store : List Contact} {c d : Contact} (h : Conn store c d) :
    Conn store d c := by
  have hsym : Symmetric (fun x y => x ∈ store ∧ y ∈ store ∧ edgeB x y = true) := by
    intro x y ⟨h1, h2, h3⟩
    exact ⟨h2, h1, by rw [edgeB_symm]; exact h3⟩
  exact (Relation.ReflTransGen.symmetric hsym) h

theorem conn_closed {store : List Contact} {S : Contact → Prop}
    (hS : ∀ x y, S x → x ∈ store → y ∈ store → edgeB x y = true → S y) :
    ∀ {c d : Contact}, Conn store c d → S c → S d := by
  intro c d h hc
  induction h with
  | refl => exact hc
  | tail _ hstep ih =>
    obtain ⟨hx, hy, he⟩ := hstep
    exact hS _ _ ih hx hy he

theorem conn_transfer {pre post : List Contact} {S : Contact → Prop}
    (hcl : ∀ x y, S x → x ∈ pre → y ∈ pre → edgeB x y = true → S y)
    (hmem : ∀ x, S x → x ∈ pre → x ∈ post)
    {c d : Contact} (h : Conn pre c d) (hc : S c) : Conn post c d := by
  induction h with
  | refl => exact Relation.ReflTransGen.refl
  | tail hcb hstep ih =>
    obtain ⟨hx, hy, he⟩ := hstep
    have hSb := conn_closed hcl hcb hc
    exact Relation.ReflTransGen.tail ih
      ⟨hmem _ hSb hx, hmem _ (hcl _ _ hSb hx hy he) hy, he⟩

theorem nextId_eq (s : List Contact) :
    nextId s = (s.map Contact.id).foldr max 0 + 1 := by
  unfold nextId
  induction s with
  | nil => rfl
  | cons c l ih =>
    simp only [List.foldr_cons, List.map_cons]
    omega

theorem linked_lt_nextId {store : List Contact} (hgood : GoodState store) :
    ∀ c ∈ store, ∀ j, c.linkedId = some j → j < nextId store := by
  intro c hc j hj
  cases hlp : c.linkPrecedence with
  | primary =>
    have := hgood.1 c hc hlp
    rw [hj] at this
    cases this
  | secondary =>
    obtain ⟨j', hj', d, hd, hdj, -, -⟩ := hgood.2.2.2 c hc hlp
    rw [hj] at hj'
    have : j = j' := by injection hj'
    subst this
    rw [← hdj]
    exact lt_nextId store d hd

/-- Appending a primary row that has no edge into the store preserves the
structural invariants. -/
theorem goodState_append_isolated {store : List Contact} {n : Contact}
    (hgood : GoodState store)
    (hnp : n.linkPrecedence = LinkPrecedence.primary)
    (hnl : n.linkedId = none)
    (hedge : ∀ c ∈ store, edgeB n c = false) :
    GoodState (store ++ [n]) := by
  have hmemiff : ∀ x : Contact, x ∈ store ++ [n] ↔ x ∈ store ∨ x = n := by
    intro x
    rw [List.mem_append, List.mem_singleton]
  -- paths between store members never pass through n
  have hrestrict : ∀ {c d : Contact}, Conn (store ++ [n]) c d → c ∈ store → d ∈ store := by
    intro c d h hc
    refine conn_closed (S := fun x => x ∈ store) ?_ h hc
    intro x y hx _ hy he
    rcases (hmemiff y).mp hy with hy' | rfl
    · exact hy'
    · rw [edgeB_symm] at he
      rw [hedge x hx] at he
      cases he
  have hlift : ∀ {c d : Contact}, Conn store c d → c ∈ store → Conn (store ++ [n]) c d := by
    intro c d h hc
    refine conn_transfer (S := fun x => x ∈ store) ?_ ?_ h hc
    · intro x y _ _ hy _
      exact hy
    · intro x _ _
      exact List.mem_append_left _ (by assumption)
  have hlower : ∀ {c d : Contact}, Conn (store ++ [n]) c d → c ∈ store → Conn store c d := by
    intro c d h hc
    refine conn_transfer (S := fun x => x ∈ store) ?_ ?_ h hc
    · intro x y hx hx' hy' he
      rcases (hmemiff y).mp hy' with hy1 | rfl
      · exact hy1
      · rw [edgeB_symm] at he
        rw [hedge x hx] at he
        cases he
    · intro x hx _
      exact hx
  have hn_only : ∀ {d : Contact}, Conn (store ++ [n]) n d → d = n := by
    intro d h
    refine conn_closed (S := fun x => x = n) ?_ h rfl
    intro x y hx _ hy' he
    subst hx
    rcases (hmemiff y).mp hy' with hy1 | rfl
    · rw [hedge y hy1] at he
      cases he
    · rfl
  refine ⟨?_, ?_, ?_, ?_⟩
  · intro c hc hlp
    rcases (hmemiff c).mp hc with hc' | rfl
    · exact hgood.1 c hc' hlp
    · exact hnl
  · intro c hc
    rcases (hmemiff c).mp hc with hc' | rfl
    · obtain ⟨u, hu, hup, hconn⟩ := hgood.2.1 c hc'
      exact ⟨u, List.mem_append_left _ hu, hup, hlift hconn hc'⟩
    · exact ⟨c, hc, hnp, Relation.ReflTransGen.refl⟩
  · intro c hc d hd hcp hdp hconn
    rcases (hmemiff c).mp hc with hc' | hcn
    · rcases (hmemiff d).mp hd with hd' | hdn
      · exact hgood.2.2.1 c hc' d hd' hcp hdp (hlower hconn hc')
      · rw [hdn] at hconn
        have h2 := hn_only (conn_symm hconn)
        rw [hdn, h2]
    · rcases (hmemiff d).mp hd with hd' | hdn
      · rw [hcn] at hconn
        have h2 := hn_only hconn
        rw [hcn, h2]
      · rw [hcn, hdn]
  · intro c hc hlp
    rcases (hmemiff c).mp hc with hc' | rfl
    · obtain ⟨j, hj, u, hu, huj, hup, hconn⟩ := hgood.2.2.2 c hc' hlp
      exact ⟨j, hj, u, List.mem_append_left _ hu, huj, hup, hlift hconn hc'⟩
    · rw [hnp] at hlp
      cases hlp

/-- Under the seniority invariant, the contact the `reduce` step selects —
the (createdAt, id)-lexicographic minimum of the expanded set — is already
the primary of its component whenever the expanded set is closed under
adjacency. -/
theorem pickOldest_primary (store : List Contact) (e p : Option String) (q : Contact)
    (hwf : SortedById store) (hgood : GoodState store) (hsen : Seniority store)
    (hcov : ∀ c ∈ allLinkedContacts store e p, ∀ d ∈ store, edgeB c d = true →
        d ∈ allLinkedContacts store e p)
    (hq : pickOldest (allLinkedContacts store e p) = some q) :
    q ∈ allLinkedContacts store e p ∧ q.linkPrecedence = LinkPrecedence.primary := by
  have hsorted : (allLinkedContacts store e p).Pairwise (fun c d => c.id < d.id) :=
    List.Pairwise.filter _ hwf
  obtain ⟨a, rest, hA⟩ : ∃ a rest, allLinkedContacts store e p = a :: rest := by
    cases hA0 : allLinkedContacts store e p with
    | nil => rw [hA0] at hq; cases hq
    | cons a rest => exact ⟨a, rest, rfl⟩
  rw [hA] at hq hsorted
  have hq' : rest.foldl
      (fun oldest curr => if curr.createdAt < oldest.createdAt then curr else oldest) a = q := by
    simpa [pickOldest, List.foldl_cons, ite_self] using hq
  have hrest_lt : ∀ x ∈ rest, a.id < x.id := (List.pairwise_cons.mp hsorted).1
  have hrest_pw : rest.Pairwise (fun c d => c.id < d.id) := (List.pairwise_cons.mp hsorted).2
  obtain ⟨h1, h2⟩ := foldl_oldest rest a
  rw [hq'] at h1 h2
  have hlex := foldl_oldest_lex rest a hrest_lt hrest_pw
  rw [hq'] at hlex
  have hq_mem : q ∈ a :: rest := by
    rcases h1 with rfl | ⟨hm, _⟩
    · exact List.mem_cons_self _ _
    · exact List.mem_cons_of_mem _ hm
  have hle : ∀ x ∈ a :: rest, q.createdAt ≤ x.createdAt := by
    intro x hx
    rcases List.mem_cons.mp hx with rfl | hx
    · rcases h1 with rfl | ⟨_, hlt⟩
      · exact le_refl _
      · exact le_of_lt hlt
    · exact h2 x hx
  have hq_A : q ∈ allLinkedContacts store e p := by rw [hA]; exact hq_mem
  have hq_store : q ∈ store := allLinked_subset_store hq_A
  obtain ⟨pp, hpp_store, hpp_prim, hconn⟩ := hgood.2.1 q hq_store
  have hpp_A : pp ∈ allLinkedContacts store e p := by
    refine conn_closed (S := fun x => x ∈ allLinkedContacts store e p) ?_ hconn hq_A
    intro x y hx hx' hy' he
    exact hcov x hx y hy' he
  by_cases hppq : pp = q
  · rw [hppq] at hpp_prim
    exact ⟨hq_A, hpp_prim⟩
  · exfalso
    have hsen' := hsen pp hpp_store q hq_store hpp_prim (conn_symm hconn) hppq
    have hpp_mem : pp ∈ a :: rest := by rw [← hA]; exact hpp_A
    rcases hsen' with hlt | ⟨heq, hidlt⟩
    · have := hle pp hpp_mem
      omega
    · have := hlex pp hpp_mem heq
      omega

theorem downgradeFun_id (tdl : List Contact) (pid : Nat) (c : Contact) :
    (downgradeFun tdl pid c).id = c.id := by
  unfold downgradeFun
  split <;> rfl

theorem downgradeFun_email (tdl : List Contact) (pid : Nat) (c : Contact) :
    (downgradeFun tdl pid c).email = c.email := by
  unfold downgradeFun
  split <;> rfl

theorem downgradeFun_phone (tdl : List Contact) (pid : Nat) (c : Contact) :
    (downgradeFun tdl pid c).phoneNumber = c.phoneNumber := by
  unfold downgradeFun
  split <;> rfl

theorem downgradeFun_createdAt (tdl : List Contact) (pid : Nat) (c : Contact) :
    (downgradeFun tdl pid c).createdAt = c.createdAt := by
  unfold downgradeFun
  split <;> rfl

theorem downgradeFun_lp (tdl : List Contact) (pid : Nat) (c : Contact) :
    (downgradeFun tdl pid c).linkPrecedence = LinkPrecedence.secondary ∨
      downgradeFun tdl pid c = c := by
  unfold downgradeFun
  split
  · exact Or.inl rfl
  · exact Or.inr rfl

theorem downgradeFun_lid (tdl : List Contact) (pid : Nat) (c : Contact) :
    (downgradeFun tdl pid c).linkedId = some pid ∨ downgradeFun tdl pid c = c := by
  unfold downgradeFun
  split
  · exact Or.inl rfl
  · exact Or.inr rfl

theorem applyDowngrades_eq_map_fun (l store : List Contact) (pid : Nat) :
    applyDowngrades store l pid = store.map (downgradeFun l pid) := by
  rw [applyDowngrades_eq_map]
  rfl

theorem sharesValue_congr {c d d' : Contact} (he : d'.email = d.email)
    (hp : d'.phoneNumber = d.phoneNumber) : sharesValue c d' = sharesValue c d := by
  unfold sharesValue
  rw [he, hp]

theorem downgradeFun_self (all : List Contact) (q : Contact) :
    downgradeFun (toDowngradeList all q) q.id q = q := by
  unfold downgradeFun
  have hno : ¬((toDowngradeList all q).any (fun d => d.id == q.id) = true) := by
    intro hany
    obtain ⟨d, hd, hdq⟩ := List.any_eq_true.mp hany
    exact mem_toDowngrade_ne d hd (by simpa using hdq)
  rw [if_neg hno]

theorem downgradeFun_out {store all : List Contact} {q c : Contact}
    (hwf : SortedById store) (hsub : ∀ x ∈ all, x ∈ store) (hc : c ∈ store)
    (hcA : c ∉ all) :
    downgradeFun (toDowngradeList all q) q.id c = c := by
  unfold downgradeFun
  have hno : ¬((toDowngradeList all q).any (fun d => d.id == c.id) = true) := by
    intro hany
    obtain ⟨d, hd, hdc⟩ := List.any_eq_true.mp hany
    have hd_store : d ∈ store := hsub d (mem_toDowngrade_sub d hd)
    have hdc' : d = c := id_inj_of_sorted hwf d hd_store c hc (by simpa using hdc)
    rw [hdc'] at hd
    exact hcA (mem_toDowngrade_sub c hd)
  rw [if_neg hno]

theorem downgradeFun_in {store all : List Contact} {q c : Contact}
    (hwf : SortedById store) (hq_store : q ∈ store) (hc : c ∈ store)
    (hcA : c ∈ all) (hcq : c ≠ q) :
    (downgradeFun (toDowngradeList all q) q.id c).linkPrecedence =
        LinkPrecedence.secondary ∧
      (downgradeFun (toDowngradeList all q) q.id c).linkedId = some q.id := by
  unfold downgradeFun
  by_cases hcond : (toDowngradeList all q).any (fun d => d.id == c.id) = true
  · rw [if_pos hcond]
    exact ⟨rfl, rfl⟩
  · rw [if_neg hcond]
    have hc_not : c ∉ toDowngradeList all q := by
      intro hmem
      exact hcond (List.any_eq_true.mpr ⟨c, hmem, by simp⟩)
    have hcid : c.id ≠ q.id := fun h => hcq (id_inj_of_sorted hwf c hc q hq_store h)
    have hpred : (c.id != q.id &&
        (c.linkPrecedence != LinkPrecedence.secondary || c.linkedId != some q.id)) = false := by
      cases hb : (c.id != q.id &&
          (c.linkPrecedence != LinkPrecedence.secondary || c.linkedId != some q.id))
      · rfl
      · exact absurd (List.mem_filter.mpr ⟨hcA, hb⟩) hc_not
    have hb1 : (c.id != q.id) = true := by simpa using hcid
    rw [hb1, Bool.true_and] at hpred
    have := Bool.or_eq_false_iff.mp hpred
    constructor
    · simpa using this.1
    · simpa using this.2

/-- Appending a fresh secondary row that references an existing primary
`q`, provided every value the row shares with the store lies in `q`'s
component, preserves the structural invariants. -/
theorem goodState_append_secondary {S : List Contact} {n q : Contact}
    (hgood : GoodState S)
    (hinj : ∀ c ∈ S, ∀ d ∈ S, c.id = d.id → c = d)
    (hq_mem : q ∈ S) (hq_prim : q.linkPrecedence = LinkPrecedence.primary)
    (hns : n.linkPrecedence = LinkPrecedence.secondary)
    (hnl : n.linkedId = some q.id)
    (hfresh : ∀ c ∈ S, c.id ≠ n.id)
    (hnoref : ∀ c ∈ S, c.linkedId ≠ some n.id)
    (hshare : ∀ c ∈ S, sharesValue n c = true → Conn S c q) :
    GoodState (S ++ [n]) := by
  have hmemiff : ∀ x : Contact, x ∈ S ++ [n] ↔ x ∈ S ∨ x = n := by
    intro x
    rw [List.mem_append, List.mem_singleton]
  have hnS : n ∉ S := fun hmem => hfresh n hmem rfl
  have hnq : edgeB n q = true := by
    unfold edgeB
    rw [hnl]
    simp
  have hconn_nq : Conn (S ++ [n]) n q :=
    Relation.ReflTransGen.single
      ⟨List.mem_append_right _ (List.mem_singleton_self n), List.mem_append_left _ hq_mem, hnq⟩
  have hlift : ∀ {c d : Contact}, Conn S c d → c ∈ S → Conn (S ++ [n]) c d := by
    intro c d h hc
    refine conn_transfer (S := fun x => x ∈ S) ?_ ?_ h hc
    · intro x y _ _ hy _
      exact hy
    · intro x hx _
      exact List.mem_append_left _ hx
  -- an edge between a store member and n forces a connection to q
  have hedge_bn : ∀ b ∈ S, edgeB b n = true → Conn S b q := by
    intro b hb he
    simp only [edgeB, Bool.or_eq_true] at he
    rcases he with (hsh | he2) | he3
    · exact hshare b hb (by rw [sharesValue_comm]; exact hsh)
    · exfalso
      have : b.linkedId = some n.id := by simpa using he2
      exact hnoref b hb this
    · have h0 : n.linkedId = some b.id := by simpa using he3
      rw [hnl] at h0
      have hbq : b.id = q.id := by injection h0 with h; exact h.symm
      have hb2 : b = q := hinj b hb q hq_mem hbq
      rw [hb2]
      exact Relation.ReflTransGen.refl
  -- decompose any path in the extended store
  have key : ∀ {x z : Contact}, Conn (S ++ [n]) x z →
      x = z ∨
      (x ∈ S ∧ z ∈ S ∧ (Conn S x z ∨ (Conn S x q ∧ Conn S q z))) ∨
      (x ∈ S ∧ z = n ∧ Conn S x q) ∨
      (x = n ∧ z ∈ S ∧ Conn S q z) := by
    intro x z h
    induction h with
    | refl => exact Or.inl rfl
    | tail hxb hstep ih =>
      rename_i b z'
      obtain ⟨hb', hz', he⟩ := hstep
      rcases (hmemiff z').mp hz' with hzS | hzn
      · rcases (hmemiff b).mp hb' with hbS | hbn
        · -- edge within S
          have hbz : Conn S b z' := Relation.ReflTransGen.single ⟨hbS, hzS, he⟩
          rcases ih with rfl | ⟨hxS, hbS2, hcase⟩ | ⟨hxS, hbn2, hxq⟩ | ⟨hxn, hbS2, hqb⟩
          · exact Or.inr (Or.inl ⟨hbS, hzS, Or.inl hbz⟩)
          · rcases hcase with hxb2 | ⟨hxq, hqb⟩
            · exact Or.inr (Or.inl ⟨hxS, hzS, Or.inl (hxb2.trans hbz)⟩)
            · exact Or.inr (Or.inl ⟨hxS, hzS, Or.inr ⟨hxq, hqb.trans hbz⟩⟩)
          · exact absurd (by rw [← hbn2]; exact hbS : n ∈ S) hnS
          · exact Or.inr (Or.inr (Or.inr ⟨hxn, hzS, hqb.trans hbz⟩))
        · -- b = n, edge n z'
          have hqz : Conn S q z' := by
            have hz2 := hedge_bn z' hzS (by rw [edgeB_symm, ← hbn]; exact he)
            exact conn_symm hz2
          rcases ih with rfl | ⟨hxS, hbS2, hcase⟩ | ⟨hxS, hbn2, hxq⟩ | ⟨hxn, hbS2, hqb⟩
          · exact Or.inr (Or.inr (Or.inr ⟨hbn, hzS, hqz⟩))
          · exact absurd (by rw [← hbn]; exact hbS2 : n ∈ S) hnS
          · exact Or.inr (Or.inl ⟨hxS, hzS, Or.inr ⟨hxq, hqz⟩⟩)
          · exact Or.inr (Or.inr (Or.inr ⟨hxn, hzS, hqz⟩))
      · rcases (hmemiff b).mp hb' with hbS | hbn
        · -- edge from S into n
          have hbq : Conn S b q := hedge_bn b hbS (by rw [hzn] at he; exact he)
          rcases ih with rfl | ⟨hxS, hbS2, hcase⟩ | ⟨hxS, hbn2, hxq⟩ | ⟨hxn, hbS2, hqb⟩
          · exact Or.inr (Or.inr (Or.inl ⟨hbS, hzn, hbq⟩))
          · rcases hcase with hxb2 | ⟨hxq, _⟩
            · exact Or.inr (Or.inr (Or.inl ⟨hxS, hzn, hxb2.trans hbq⟩))
            · exact Or.inr (Or.inr (Or.inl ⟨hxS, hzn, hxq⟩))
          · exact absurd (by rw [← hbn2]; exact hbS : n ∈ S) hnS
          · exact Or.inl (hxn.trans hzn.symm)
        · -- b = n and z' = n
          rcases ih with rfl | ⟨hxS, hbS2, hcase⟩ | ⟨hxS, hbn2, hxq⟩ | ⟨hxn, hbS2, hqb⟩
          · exact Or.inl (hbn.trans hzn.symm)
          · exact absurd (by rw [← hbn]; exact hbS2 : n ∈ S) hnS
          · exact Or.inr (Or.inr (Or.inl ⟨hxS, hzn, hxq⟩))
          · exact Or.inl (hxn.trans hzn.symm)
  refine ⟨?_, ?_, ?_, ?_⟩
  · intro c hc hlp
    rcases (hmemiff c).mp hc with hcS | hcn
    · exact hgood.1 c hcS hlp
    · rw [hcn, hns] at hlp
      exact LinkPrecedence.noConfusion hlp
  · intro c hc
    rcases (hmemiff c).mp hc with hcS | hcn
    · obtain ⟨u, hu, hup, hconn⟩ := hgood.2.1 c hcS
      exact ⟨u, List.mem_append_left _ hu, hup, hlift hconn hcS⟩
    · refine ⟨q, List.mem_append_left _ hq_mem, hq_prim, ?_⟩
      rw [hcn]
      exact hconn_nq
  · intro c hc d hd hcp hdp hconn
    rcases (hmemiff c).mp hc with hcS | hcn
    · rcases (hmemiff d).mp hd with hdS | hdn
      · rcases key hconn with rfl | ⟨_, _, hcase⟩ | ⟨_, hdn2, _⟩ | ⟨hcn2, _, _⟩
        · rfl
        · rcases hcase with hcd | ⟨hcq, hqd⟩
          · exact hgood.2.2.1 c hcS d hdS hcp hdp hcd
          · have h1 : c = q := hgood.2.2.1 c hcS q hq_mem hcp hq_prim hcq
            have h2 : q = d := hgood.2.2.1 q hq_mem d hdS hq_prim hdp hqd
            exact h1.trans h2
        · exact absurd (by rw [← hdn2]; exact hdS : n ∈ S) hnS
        · exact absurd (by rw [← hcn2]; exact hcS : n ∈ S) hnS
      · rw [hdn, hns] at hdp
        exact LinkPrecedence.noConfusion hdp
    · rw [hcn, hns] at hcp
      exact LinkPrecedence.noConfusion hcp
  · intro c hc hlp
    rcases (hmemiff c).mp hc with hcS | hcn
    · obtain ⟨j, hj, u, hu, huj, hup, hconn⟩ := hgood.2.2.2 c hcS hlp
      exact ⟨j, hj, u, List.mem_append_left _ hu, huj, hup, hlift hconn hcS⟩
    · refine ⟨q.id, by rw [hcn]; exact hnl, q, List.mem_append_left _ hq_mem, rfl, hq_prim, ?_⟩
      rw [hcn]
      exact hconn_nq

/-- Downgrading every member of an adjacency-closed subset `all` to a
secondary of `all`'s primary `q` preserves the structural invariants. -/
theorem goodState_downgraded (store all : List Contact) (q : Contact)
    (hwf : SortedById store) (hgood : GoodState store)
    (hsub : ∀ x ∈ all, x ∈ store)
    (hq_A : q ∈ all)
    (hq_prim : q.linkPrecedence = LinkPrecedence.primary)
    (hcov : ∀ c ∈ all, ∀ d ∈ store, edgeB c d = true → d ∈ all) :
    GoodState (store.map (downgradeFun (toDowngradeList all q) q.id)) := by
  have hq_store : q ∈ store := hsub q hq_A
  have hfq : downgradeFun (toDowngradeList all q) q.id q = q := downgradeFun_self all q
  have hq_post : q ∈ store.map (downgradeFun (toDowngradeList all q) q.id) :=
    List.mem_map.mpr ⟨q, hq_store, hfq⟩
  have hids : (store.map (downgradeFun (toDowngradeList all q) q.id)).map Contact.id =
      store.map Contact.id := by
    rw [List.map_map]
    exact List.map_congr_left fun c _ => downgradeFun_id _ _ c
  have hsorted' : SortedById (store.map (downgradeFun (toDowngradeList all q) q.id)) :=
    sortedById_of_map_id_eq hids.symm hwf
  have hlidq : ∀ d ∈ store,
      (downgradeFun (toDowngradeList all q) q.id d).linkedId = some q.id → d ∈ all := by
    intro d hd hlid
    by_cases hdA : d ∈ all
    · exact hdA
    · have hfd := downgradeFun_out hwf hsub hd hdA (q := q)
      rw [hfd] at hlid
      have he : edgeB q d = true := by
        unfold edgeB
        rw [hlid]
        simp
      exact hcov q hq_A d hd he
  have hconnq : ∀ c ∈ store, c ∈ all →
      Conn (store.map (downgradeFun (toDowngradeList all q) q.id))
        (downgradeFun (toDowngradeList all q) q.id c) q := by
    intro c hc hcA
    by_cases hcq : c = q
    · rw [hcq, hfq]
      exact Relation.ReflTransGen.refl
    · have hdn := downgradeFun_in hwf hq_store hc hcA hcq
      refine Relation.ReflTransGen.single ⟨List.mem_map_of_mem _ hc, hq_post, ?_⟩
      unfold edgeB
      rw [hdn.2]
      simp
  have hIn_closed : ∀ c ∈ store, c ∈ all → ∀ d ∈ store,
      edgeB (downgradeFun (toDowngradeList all q) q.id c)
        (downgradeFun (toDowngradeList all q) q.id d) = true → d ∈ all := by
    intro c hc hcA d hd he
    simp only [edgeB, Bool.or_eq_true] at he
    rcases he with (hsh | hl1) | hl2
    · have h1 : sharesValue (downgradeFun (toDowngradeList all q) q.id c)
          (downgradeFun (toDowngradeList all q) q.id d) =
          sharesValue (downgradeFun (toDowngradeList all q) q.id c) d :=
        sharesValue_congr (downgradeFun_email _ _ d) (downgradeFun_phone _ _ d)
      have h2 := sharesValue_comm (downgradeFun (toDowngradeList all q) q.id c) d
      have h3 : sharesValue d (downgradeFun (toDowngradeList all q) q.id c) =
          sharesValue d c :=
        sharesValue_congr (downgradeFun_email _ _ c) (downgradeFun_phone _ _ c)
      have h4 := sharesValue_comm d c
      rw [h1, h2, h3, h4] at hsh
      have hedge : edgeB c d = true := by
        unfold edgeB
        rw [hsh]
        simp
      exact hcov c hcA d hd hedge
    · have hl1' : (downgradeFun (toDowngradeList all q) q.id c).linkedId =
          some (downgradeFun (toDowngradeList all q) q.id d).id := by simpa using hl1
      rw [downgradeFun_id] at hl1'
      rcases downgradeFun_lid (toDowngradeList all q) q.id c with hcl | hcl
      · rw [hcl] at hl1'
        have hdq : d.id = q.id := by
          injection hl1' with h
          exact h.symm
        have hdq2 : d = q := id_inj_of_sorted hwf d hd q hq_store hdq
        rw [hdq2]
        exact hq_A
      · rw [hcl] at hl1'
        have hedge : edgeB c d = true := by
          unfold edgeB
          rw [hl1']
          simp
        exact hcov c hcA d hd hedge
    · have hl2' : (downgradeFun (toDowngradeList all q) q.id d).linkedId =
          some (downgradeFun (toDowngradeList all q) q.id c).id := by simpa using hl2
      rw [downgradeFun_id] at hl2'
      rcases downgradeFun_lid (toDowngradeList all q) q.id d with hdl | hdl
      · exact hlidq d hd hdl
      · rw [hdl] at hl2'
        have hedge : edgeB c d = true := by
          unfold edgeB
          rw [hl2']
          simp
        exact hcov c hcA d hd hedge
  have hOut_pre : ∀ x y : Contact, (x ∈ store ∧ x ∉ all) → x ∈ store → y ∈ store →
      edgeB x y = true → (y ∈ store ∧ y ∉ all) := by
    intro x y hx _ hy he
    refine ⟨hy, ?_⟩
    intro hyA
    exact hx.2 (hcov y hyA x hx.1 (by rw [edgeB_symm]; exact he))
  have hOut_lift : ∀ {c d : Contact}, Conn store c d → c ∈ store → c ∉ all →
      Conn (store.map (downgradeFun (toDowngradeList all q) q.id)) c d := by
    intro c d h hc hcA
    refine conn_transfer (S := fun x => x ∈ store ∧ x ∉ all) hOut_pre ?_ h ⟨hc, hcA⟩
    intro x hx _
    exact List.mem_map.mpr ⟨x, hx.1, downgradeFun_out hwf hsub hx.1 hx.2⟩
  have hOut_post_closed : ∀ x y : Contact, (x ∈ store ∧ x ∉ all) →
      x ∈ store.map (downgradeFun (toDowngradeList all q) q.id) →
      y ∈ store.map (downgradeFun (toDowngradeList all q) q.id) →
      edgeB x y = true → (y ∈ store ∧ y ∉ all) := by
    intro x y hx _ hy he
    obtain ⟨d, hd, rfl⟩ := List.mem_map.mp hy
    have hfx : downgradeFun (toDowngradeList all q) q.id x = x :=
      downgradeFun_out hwf hsub hx.1 hx.2
    by_cases hdA : d ∈ all
    · exfalso
      have he2 : edgeB (downgradeFun (toDowngradeList all q) q.id d)
          (downgradeFun (toDowngradeList all q) q.id x) = true := by
        rw [hfx, edgeB_symm]
        exact he
      exact hx.2 (hIn_closed d hd hdA x hx.1 he2)
    · rw [downgradeFun_out hwf hsub hd hdA]
      exact ⟨hd, hdA⟩
  have hOut_lower : ∀ {c d : Contact},
      Conn (store.map (downgradeFun (toDowngradeList all q) q.id)) c d →
      c ∈ store → c ∉ all → Conn store c d ∧ (d ∈ store ∧ d ∉ all) := by
    intro c d h hc hcA
    constructor
    · refine conn_transfer (S := fun x => x ∈ store ∧ x ∉ all) hOut_post_closed ?_ h ⟨hc, hcA⟩
      intro x hx _
      exact hx.1
    · exact conn_closed hOut_post_closed h ⟨hc, hcA⟩
  have hSIn_closed : ∀ xx yy : Contact,
      (∃ c ∈ store, c ∈ all ∧ xx = downgradeFun (toDowngradeList all q) q.id c) →
      xx ∈ store.map (downgradeFun (toDowngradeList all q) q.id) →
      yy ∈ store.map (downgradeFun (toDowngradeList all q) q.id) →
      edgeB xx yy = true →
      ∃ c ∈ store, c ∈ all ∧ yy = downgradeFun (toDowngradeList all q) q.id c := by
    intro xx yy hxx _ hyy he
    obtain ⟨c, hc, hcA, rfl⟩ := hxx
    obtain ⟨d, hd, rfl⟩ := List.mem_map.mp hyy
    exact ⟨d, hd, hIn_closed c hc hcA d hd he, rfl⟩
  have hprim_shape : ∀ c ∈ store,
      (downgradeFun (toDowngradeList all q) q.id c).linkPrecedence =
        LinkPrecedence.primary →
      downgradeFun (toDowngradeList all q) q.id c = c ∧ (c ∉ all ∨ c = q) := by
    intro c hc hlp
    by_cases hcA : c ∈ all
    · by_cases hcq : c = q
      · refine ⟨?_, Or.inr hcq⟩
        rw [hcq]
        exact hfq
      · exfalso
        have := (downgradeFun_in hwf hq_store hc hcA hcq).1
        rw [this] at hlp
        exact LinkPrecedence.noConfusion hlp
    · exact ⟨downgradeFun_out hwf hsub hc hcA, Or.inl hcA⟩
  refine ⟨?_, ?_, ?_, ?_⟩
  · -- primaries carry no linkedId
    intro x hx hlp
    obtain ⟨c, hc, rfl⟩ := List.mem_map.mp hx
    obtain ⟨hfix, _⟩ := hprim_shape c hc hlp
    rw [hfix] at hlp ⊢
    exact hgood.1 c hc hlp
  · -- everyone reaches a primary
    intro x hx
    obtain ⟨c, hc, rfl⟩ := List.mem_map.mp hx
    by_cases hcA : c ∈ all
    · exact ⟨q, hq_post, hq_prim, hconnq c hc hcA⟩
    · have hfix := downgradeFun_out hwf hsub hc hcA (q := q)
      obtain ⟨u, hu, hup, hconn⟩ := hgood.2.1 c hc
      have hu_out := conn_closed hOut_pre hconn ⟨hc, hcA⟩
      refine ⟨u, List.mem_map.mpr ⟨u, hu_out.1, downgradeFun_out hwf hsub hu_out.1 hu_out.2⟩,
        hup, ?_⟩
      rw [hfix]
      exact hOut_lift hconn hc hcA
  · -- at most one primary per component
    intro x hx y hy hxp hyp hconn
    obtain ⟨cx, hcx, rfl⟩ := List.mem_map.mp hx
    obtain ⟨cy, hcy, rfl⟩ := List.mem_map.mp hy
    obtain ⟨hfixx, hxcase⟩ := hprim_shape cx hcx hxp
    obtain ⟨hfixy, hycase⟩ := hprim_shape cy hcy hyp
    rw [hfixx] at hconn hxp ⊢
    rw [hfixy] at hconn hyp ⊢
    rcases hxcase with hxout | hxq
    · rcases hycase with hyout | hyq
      · exact hgood.2.2.1 cx hcx cy hcy hxp hyp (hOut_lower hconn hcx hxout).1
      · -- cy = q, cx out: the path from q would stay in the image of all
        exfalso
        rw [hyq] at hconn
        have hstart : ∃ c ∈ store, c ∈ all ∧
            q = downgradeFun (toDowngradeList all q) q.id c := ⟨q, hq_store, hq_A, hfq.symm⟩
        have hend := conn_closed hSIn_closed (conn_symm hconn) hstart
        obtain ⟨c', hc', hcA', hcxeq⟩ := hend
        have hideq : cx.id = c'.id := by
          rw [hcxeq, downgradeFun_id]
        have hcx2 : cx = c' := id_inj_of_sorted hwf cx hcx c' hc' hideq
        rw [hcx2] at hxout
        exact hxout hcA'
    · rcases hycase with hyout | hyq
      · exfalso
        rw [hxq] at hconn
        have hstart : ∃ c ∈ store, c ∈ all ∧
            q = downgradeFun (toDowngradeList all q) q.id c := ⟨q, hq_store, hq_A, hfq.symm⟩
        have hend := conn_closed hSIn_closed hconn hstart
        obtain ⟨c', hc', hcA', hcyeq⟩ := hend
        have hideq : cy.id = c'.id := by
          rw [hcyeq, downgradeFun_id]
        have hcy2 : cy = c' := id_inj_of_sorted hwf cy hcy c' hc' hideq
        rw [hcy2] at hyout
        exact hyout hcA'
      · rw [hxq, hyq]
  · -- secondaries reference their component's primary
    intro x hx hlp
    obtain ⟨c, hc, rfl⟩ := List.mem_map.mp hx
    by_cases hcA : c ∈ all
    · by_cases hcq : c = q
      · exfalso
        rw [hcq, hfq] at hlp
        rw [hq_prim] at hlp
        exact LinkPrecedence.noConfusion hlp
      · have hdn := downgradeFun_in hwf hq_store hc hcA hcq
        exact ⟨q.id, hdn.2, q, hq_post, rfl, hq_prim, hconnq c hc hcA⟩
    · have hfix := downgradeFun_out hwf hsub hc hcA (q := q)
      rw [hfix] at hlp ⊢
      obtain ⟨j, hj, u, hu, huj, hup, hconn⟩ := hgood.2.2.2 c hc hlp
      have hu_out := conn_closed hOut_pre hconn ⟨hc, hcA⟩
      exact ⟨j, hj, u,
        List.mem_map.mpr ⟨u, hu_out.1, downgradeFun_out hwf hsub hu_out.1 hu_out.2⟩,
        huj, hup, hOut_lift hconn hc hcA⟩

/-- The main path of the route (downgrades plus the optional fresh
secondary) preserves the structural invariants, given that the expanded set
is adjacency-closed and its selected oldest member is primary. -/
theorem goodState_main (store : List Contact) (now : Nat) (e p : Option String) (q : Contact)
    (hwf : SortedById store) (hgood : GoodState store)
    (hq_A : q ∈ allLinkedContacts store e p)
    (hq_prim : q.linkPrecedence = LinkPrecedence.primary)
    (hcov : ∀ c ∈ allLinkedContacts store e p, ∀ d ∈ store, edgeB c d = true →
        d ∈ allLinkedContacts store e p) :
    GoodState ((resolveMain store now e p (allLinkedContacts store e p) q).2) := by
  rw [resolveMain_post, applyDowngrades_eq_map_fun]
  have hsub : ∀ x ∈ allLinkedContacts store e p, x ∈ store :=
    fun x hx => allLinked_subset_store hx
  have hq_store : q ∈ store := hsub q hq_A
  have hfq : downgradeFun (toDowngradeList (allLinkedContacts store e p) q) q.id q = q :=
    downgradeFun_self _ q
  have hgood1 := goodState_downgraded store (allLinkedContacts store e p) q hwf hgood hsub
    hq_A hq_prim hcov
  have hq_post : q ∈ store.map
      (downgradeFun (toDowngradeList (allLinkedContacts store e p) q) q.id) :=
    List.mem_map.mpr ⟨q, hq_store, hfq⟩
  have hids : (store.map
        (downgradeFun (toDowngradeList (allLinkedContacts store e p) q) q.id)).map
        Contact.id = store.map Contact.id := by
    rw [List.map_map]
    exact List.map_congr_left fun c _ => downgradeFun_id _ _ c
  have hsorted1 : SortedById (store.map
      (downgradeFun (toDowngradeList (allLinkedContacts store e p) q) q.id)) :=
    sortedById_of_map_id_eq hids.symm hwf
  have hnext : nextId (store.map
      (downgradeFun (toDowngradeList (allLinkedContacts store e p) q) q.id)) =
      nextId store := by
    rw [nextId_eq, nextId_eq, hids]
  cases hintro : introducesNewInfoB (allLinkedContacts store e p) e p
  · simp only [Bool.false_eq_true, if_false]
    exact hgood1
  · simp only [if_true]
    refine goodState_append_secondary hgood1 (id_inj_of_sorted hsorted1) hq_post hq_prim
      rfl rfl ?_ ?_ ?_
    · -- fresh id
      intro c hc
      have := lt_nextId _ c hc
      show c.id ≠ nextId (store.map
        (downgradeFun (toDowngradeList (allLinkedContacts store e p) q) q.id))
      omega
    · -- nobody references the fresh id
      intro c hc
      obtain ⟨d, hd, rfl⟩ := List.mem_map.mp hc
      rcases downgradeFun_lid (toDowngradeList (allLinkedContacts store e p) q) q.id d
        with hdl | hdl
      · rw [hdl]
        intro hcon
        have hq_lt : q.id < nextId (store.map
            (downgradeFun (toDowngradeList (allLinkedContacts store e p) q) q.id)) :=
          lt_nextId _ q hq_post
        have : q.id = nextId (store.map
            (downgradeFun (toDowngradeList (allLinkedContacts store e p) q) q.id)) := by
          injection hcon
        omega
      · rw [hdl]
        intro hcon
        have hmk : (mkContact (nextId (store.map
            (downgradeFun (toDowngradeList (allLinkedContacts store e p) q) q.id)))
            e p LinkPrecedence.secondary (some q.id) now).id =
            nextId (store.map
              (downgradeFun (toDowngradeList (allLinkedContacts store e p) q) q.id)) := rfl
        rw [hmk, hnext] at hcon
        have hlt := linked_lt_nextId hgood d hd _ hcon
        omega
    · -- every shared value of the fresh row lies in the primary's component
      intro c hc hsh
      obtain ⟨d, hd, rfl⟩ := List.mem_map.mp hc
      have hsh' : sharesValue
          (mkContact (nextId (store.map
            (downgradeFun (toDowngradeList (allLinkedContacts store e p) q) q.id)))
            e p LinkPrecedence.secondary (some q.id) now) d = true := by
        rw [← sharesValue_congr (downgradeFun_email _ _ d) (downgradeFun_phone _ _ d)]
        exact hsh
      have hdA : d ∈ allLinkedContacts store e p := by
        rcases sharesValue_spec.mp hsh' with ⟨v, hnv, hdv⟩ | ⟨v, hnv, hdv⟩
        · have hev : e = some v := hnv
          refine seeds_subset_allLinked (List.mem_filter.mpr ⟨hd, ?_⟩)
          unfold buildWhereOrForSingleLookup
          rw [hev]
          simp [hdv]
        · have hpv : p = some v := hnv
          refine seeds_subset_allLinked (List.mem_filter.mpr ⟨hd, ?_⟩)
          unfold buildWhereOrForSingleLookup
          rw [hpv]
          simp [hdv]
      by_cases hdq : d = q
      · rw [hdq, hfq]
        exact Relation.ReflTransGen.refl
      · have hdn := downgradeFun_in hwf hq_store hd hdA hdq
        refine Relation.ReflTransGen.single ⟨List.mem_map_of_mem _ hd, hq_post, ?_⟩
        unfold edgeB
        rw [hdn.2]
        simp

/-- C1 (amended): over components of the joint relation "shares a value or
references via linkedId" (value sharing alone loses merges whose linking
pair was already fully known), and for stores that are id-sorted, satisfy
the structural invariants plus seniority (each component's primary is its
lexicographically oldest member), any valid request whose expansion happens
to capture an adjacency-closed set leaves the invariants intact: one primary
per component, all other members secondary referencing it, no secondary
referencing a secondary. -/
theorem C1_amended_invariants (store : List Contact) (now : Nat) (e p : Option String)
    (hwf : SortedById store) (hgood : GoodState store) (hsen : Seniority store)
    (hvalid : (truthy e || truthy p) = true)
    (hcov : ∀ c ∈ allLinkedContacts store e p, ∀ d ∈ store, edgeB c d = true →
        d ∈ allLinkedContacts store e p) :
    GoodState ((resolve store now e p).2) := by
  have hvalid' : (!truthy e && !truthy p) = false := by
    cases he : truthy e <;> cases hp : truthy p <;> simp_all
  by_cases hseeds : existingContacts store e p = []
  · -- the request creates a fresh isolated primary
    have hie : (existingContacts store e p).isEmpty = true := List.isEmpty_iff.mpr hseeds
    rw [resolve, hvalid']
    simp only [Bool.false_eq_true, if_false]
    rw [hie]
    simp only [if_true]
    show GoodState (store ++ [newPrimaryContact store now e p])
    refine goodState_append_isolated hgood rfl rfl ?_
    intro c hc
    have h1 : sharesValue (newPrimaryContact store now e p) c = false := by
      cases hb : sharesValue (newPrimaryContact store now e p) c
      · rfl
      · exfalso
        rcases sharesValue_spec.mp hb with ⟨v, hnv, hcv⟩ | ⟨v, hnv, hcv⟩
        · have hev : e = some v := hnv
          have hcs : c ∈ existingContacts store e p := by
            refine List.mem_filter.mpr ⟨hc, ?_⟩
            unfold buildWhereOrForSingleLookup
            rw [hev]
            simp [hcv]
          rw [hseeds] at hcs
          cases hcs
        · have hpv : p = some v := hnv
          have hcs : c ∈ existingContacts store e p := by
            refine List.mem_filter.mpr ⟨hc, ?_⟩
            unfold buildWhereOrForSingleLookup
            rw [hpv]
            simp [hcv]
          rw [hseeds] at hcs
          cases hcs
    have h3 : (c.linkedId == some (newPrimaryContact store now e p).id) = false := by
      cases hcl : c.linkedId with
      | none => rfl
      | some j =>
        have hj := linked_lt_nextId hgood c hc j hcl
        have hne : j ≠ nextId store := Nat.ne_of_lt hj
        simpa using hne
    unfold edgeB
    rw [h1, h3]
    simp [newPrimaryContact, mkContact]
  · -- main path
    cases hpick : pickOldest (allLinkedContacts store e p) with
    | none =>
      exfalso
      obtain ⟨s0, hs0⟩ := List.exists_mem_of_ne_nil _ hseeds
      have hmem := seeds_subset_allLinked hs0
      cases hA2 : allLinkedContacts store e p with
      | nil =>
        rw [hA2] at hmem
        cases hmem
      | cons a rest =>
        rw [hA2] at hpick
        simp [pickOldest] at hpick
    | some q =>
      have hq := pickOldest_primary store e p q hwf hgood hsen hcov hpick
      rw [resolve_main_eq store now e p q hvalid hseeds hpick]
      exact goodState_main store now e p q hwf hgood hq.1 hq.2 hcov

/-- C1 witness: the amended preservation theorem applied to a singleton
store satisfying all invariants and a request matching its one row. -/
theorem C1_amended_invariants_witness :
    GoodState ((resolve [exC1w] 5 (some "a") none).2) :=
  C1_amended_invariants [exC1w] 5 (some "a") none
    (by decide)
    ⟨by
      intro c hc hlp
      rw [List.mem_singleton.mp hc]
      rfl,
     by
      intro c hc
      refine ⟨exC1w, List.mem_singleton_self _, rfl, ?_⟩
      rw [List.mem_singleton.mp hc]
      exact Relation.ReflTransGen.refl,
     by
      intro c hc d hd _ _ _
      rw [List.mem_singleton.mp hc, List.mem_singleton.mp hd],
     by
      intro c hc hlp
      rw [List.mem_singleton.mp hc] at hlp
      exact absurd hlp (by decide)⟩
    (by
      intro c hc d hd _ _ hne
      exact absurd (by rw [List.mem_singleton.mp hc, List.mem_singleton.mp hd]) hne)
    (by decide)
    (by
      intro c hc d hd he
      rw [List.mem_singleton.mp hd]
      decide)

end Bitespeed
